import Mathlib

/-!
The JSON file store of `storage/jsonStorage.go`.

A shallow embedding of the `library` store: a book collection kept as one
JSON document in an open file, reread and rewritten in full by every
operation.

* Go strings are byte sequences (`len` and indexing count bytes).
* `float64` values are observed by comparison only; they are modelled by
  their order type (NaN, the two infinities, the finite values as rationals,
  the two zeros identified since `==`, `<`, `>` do not tell them apart).
* The open file is its byte content, the handle offset, and a schedule that
  says which of the coming system calls fail.
* `encoding/json` and `strconv.ParseFloat` are library code; they are the
  fields of `Env`. What the codec does to strings that are not valid UTF-8
  is `Env.Coerces`; `Env.Lawful` is the exact round trip it makes on valid
  ones.
-/

namespace Storage

/-! Data model -/

/-- A Go string: a sequence of bytes. -/
abbrev GoString := List UInt8

/-- The values of a Go float64 as the comparisons see them. -/
inductive Float64 where
  | nan
  | negInf
  | fin (q : ℚ)
  | posInf
  deriving DecidableEq

/-- Go `x == y` on float64: NaN equals nothing. -/
def Float64.eq : Float64 → Float64 → Bool
  | .negInf, .negInf => true
  | .posInf, .posInf => true
  | .fin a, .fin b => decide (a = b)
  | _, _ => false

/-- Go `x < y` on float64: every comparison with NaN is false. -/
def Float64.lt : Float64 → Float64 → Bool
  | .negInf, .fin _ => true
  | .negInf, .posInf => true
  | .fin a, .fin b => decide (a < b)
  | .fin _, .posInf => true
  | _, _ => false

/-- Go `x > y` on float64. -/
def Float64.gt (x y : Float64) : Bool := Float64.lt y x

/-- The float64 constant `0`. -/
def Float64.zero : Float64 := .fin 0

/-- Modelled from the spec: the declaration of `Book` is not under src/. The
spec gives a record with identifier (string), title (string), page count
(integer), price (floating-point number) and genre labels (strings); the
code reads and writes the fields `ID`, `Title`, `Pages`, `Price`, `Genres`
and compares `Genres` with nil, so a nil slice is `none`. -/
structure Book where
  ID : GoString
  Title : GoString
  Price : Float64
  Pages : Int
  Genres : Option (List GoString)
  deriving DecidableEq

/-- Modelled from the spec: `Books` is an ordered sequence of `Book` (a nil
slice and an empty slice are both the empty sequence). -/
abbrev Books := List Book

/-- Modelled from the spec: `BookFilter` carries the comparison expression;
the code reads its field `Price`, a string. -/
structure BookFilter where
  Price : GoString
  deriving DecidableEq

/-- The results a store operation can fail with. The first three are the
package variables of the source; `notPopulated` is the error value
`errors.New("not all fields are populated")` that `CreateBook` builds;
`file`, `unmarshal`, `marshal` and `parseFloat` are the errors handed back by
`os.File`, `json.Unmarshal`, `json.MarshalIndent` and `strconv.ParseFloat`;
`outOfRange` is the run-time panic of an index or slice expression. -/
inductive Err where
  | ErrNotFound
  | ErrNotValidData
  | ErrUnsupportedOperation
  | notPopulated
  | file
  | unmarshal
  | marshal
  | parseFloat
  | outOfRange
  deriving DecidableEq

deriving instance DecidableEq for Except

/-- The library functions the store calls. -/
structure Env where
  /-- The call `json.MarshalIndent(books, "", "    ")`; `none` is an error. -/
  MarshalIndent : Books → Option (List UInt8)
  /-- The call `json.Unmarshal(file, &books)` on a fresh `books`. -/
  Unmarshal : List UInt8 → Option Books
  /-- The call `strconv.ParseFloat(s, 64)`. -/
  ParseFloat : GoString → Option Float64

/-- The exact round trip of `encoding/json`: decoding an encoding gives back
the sequence that was encoded. The library does this for sequences whose
strings are valid UTF-8, as are all sequences that come out of the decoder;
a string that is not valid UTF-8 comes back changed, which is what
`Env.Coerces` describes. -/
def Env.Lawful (E : Env) : Prop :=
  ∀ (books : Books) (out : List UInt8), E.MarshalIndent books = some out → E.Unmarshal out = some books

/-! The open file -/

/-- An open `os.File`: content, handle offset, and for each coming system
call whether it fails (`true`); past the end of the schedule none fails. -/
structure File where
  data : List UInt8
  off : Nat
  faults : List Bool
  deriving DecidableEq

/-- Start of a system call: take the next entry of the fault schedule. -/
def File.tick (f : File) : Bool × File :=
  match f.faults with
  | [] => (false, f)
  | x :: rest => (x, { f with faults := rest })

/-- The call `Seek(offset, 0)`: `true` when it succeeded. -/
def File.Seek (f : File) (offset : Nat) : Bool × File :=
  match f.tick with
  | (true, g) => (false, g)
  | (false, g) => (true, { g with off := offset })

/-- The call `ioutil.ReadAll`: the bytes from the offset to the end. -/
def File.ReadAll (f : File) : Option (List UInt8) × File :=
  match f.tick with
  | (true, g) => (none, g)
  | (false, g) => (some (g.data.drop g.off), { g with off := max g.off g.data.length })

/-- The call `Truncate(size)`: the content is cut or zero-filled to `size`
bytes; the offset is not moved. -/
def File.Truncate (f : File) (size : Nat) : Bool × File :=
  match f.tick with
  | (true, g) => (false, g)
  | (false, g) =>
    (true, { g with data := g.data.take size ++ List.replicate (size - g.data.length) 0 })

/-- The call `Write(b)`: the bytes go to the offset (zero-filling a gap past
the end) and the offset advances. -/
def File.Write (f : File) (b : List UInt8) : Bool × File :=
  match f.tick with
  | (true, g) => (false, g)
  | (false, g) =>
    (true, { g with
      data := g.data.take g.off ++ List.replicate (g.off - g.data.length) 0 ++ b
                ++ g.data.drop (g.off + b.length)
      off := g.off + b.length })

/-- The store: the struct `library` with its one field. -/
structure library where
  storage : File
  deriving DecidableEq

/-! The operations -/

/-- The loop of `wantedIndex`, from position `index` on. -/
def wantedIndex.loop (id : GoString) : Books → Nat → Except Err Nat
  | [], _ => .error .ErrNotFound
  | book :: rest, index => if id = book.ID then .ok index else wantedIndex.loop id rest (index + 1)

/-- `wantedIndex`: the index of the first book whose ID is `id`. -/
def wantedIndex (id : GoString) (books : Books) : Except Err Nat :=
  wantedIndex.loop id books 0

/-- `GetBooks`: seek to the start, read everything, decode. The decoded
sequence is returned as the gc compiler does it, read after the call of
`json.Unmarshal`. -/
def GetBooks (E : Env) (l : library) : Except Err Books × library :=
  match l.storage.Seek 0 with
  | (false, f1) => (.error .file, ⟨f1⟩)
  | (true, f1) =>
    match f1.ReadAll with
    | (none, f2) => (.error .file, ⟨f2⟩)
    | (some file, f2) =>
      match E.Unmarshal file with
      | none => (.error .unmarshal, ⟨f2⟩)
      | some books => (.ok books, ⟨f2⟩)

/-- The "hook" shared by the three writers: `Truncate(0)`, `Seek(0, 0)`,
`Write(byteBooks)`; `none` is the nil error. -/
def rewrite (l : library) (byteBooks : List UInt8) : Option Err × library :=
  match l.storage.Truncate 0 with
  | (false, f1) => (some .file, ⟨f1⟩)
  | (true, f1) =>
    match f1.Seek 0 with
    | (false, f2) => (some .file, ⟨f2⟩)
    | (true, f2) =>
      match f2.Write byteBooks with
      | (false, f3) => (some .file, ⟨f3⟩)
      | (true, f3) => (none, ⟨f3⟩)

/-- Modelled from the spec: `PrepareToCreate` is not under src/. The spec says
the create operation "assigns a fresh unique identifier"; `fresh` is the
identifier the generator hands out for this call, and no other field is
touched. -/
def PrepareToCreate (fresh : GoString) (book : Book) : Book :=
  { book with ID := fresh }

/-- Modelled from the spec: the guarantee of the identifier generator, "a
fresh unique identifier", "non-empty and unique among all previously created
records": the identifier is not empty and no record of `books` carries it. -/
def FreshID (fresh : GoString) (books : Books) : Prop :=
  fresh ≠ [] ∧ ∀ x ∈ books, x.ID ≠ fresh

/-- The `switch` that opens `CreateBook`: `true` when one of its cases
(`Genres == nil`, `Pages == 0`, `Price == 0`, `Title == ""`) fires. -/
def rejected (book : Book) : Bool :=
  if book.Genres = none then true
  else if book.Pages = 0 then true
  else if book.Price.eq Float64.zero then true
  else if book.Title = [] then true
  else false

/-- `CreateBook`; `none` is the nil error. Each case of the opening `switch`
returns the error built in the first statement. -/
def CreateBook (E : Env) (fresh : GoString) (book : Book) (l : library) : Option Err × library :=
  if rejected book then (some .notPopulated, l)
  else
    let book := PrepareToCreate fresh book
    match GetBooks E l with
    | (.error err, l1) => (some err, l1)
    | (.ok books, l1) =>
      let books := books ++ [book]
      match E.MarshalIndent books with
      | none => (some .marshal, l1)
      | some byteBooks => rewrite l1 byteBooks

/-- The scan of `GetBook`. -/
def GetBook.scan (id : GoString) : Books → Except Err Book
  | [] => .error .ErrNotFound
  | book :: rest => if id = book.ID then .ok book else GetBook.scan id rest

/-- `GetBook`. -/
def GetBook (E : Env) (id : GoString) (l : library) : Except Err Book × library :=
  match GetBooks E l with
  | (.error err, l1) => (.error err, l1)
  | (.ok books, l1) => (GetBook.scan id books, l1)

/-- `RemoveBook`; `none` is the nil error. The slice expressions
`books[:index]` and `books[index+1:]` panic when `index+1` exceeds the
length. -/
def RemoveBook (E : Env) (id : GoString) (l : library) : Option Err × library :=
  match GetBooks E l with
  | (.error err, l1) => (some err, l1)
  | (.ok books, l1) =>
    match wantedIndex id books with
    | .error err => (some err, l1)
    | .ok index =>
      if books.length < index + 1 then (some .outOfRange, l1)
      else
        let books := books.take index ++ books.drop (index + 1)
        match E.MarshalIndent books with
        | none => (some .marshal, l1)
        | some byteBooks => rewrite l1 byteBooks

/-- `ChangeBook`. The last statement returns `*book` together with the
error of `Write`, so the record is returned also when the write failed. -/
def ChangeBook (E : Env) (changedBook : Book) (l : library) : (Book × Option Err) × library :=
  let b : Book := ⟨[], [], Float64.zero, 0, none⟩
  match GetBooks E l with
  | (.error err, l1) => ((b, some err), l1)
  | (.ok books, l1) =>
    match wantedIndex changedBook.ID books with
    | .error err => ((b, some err), l1)
    | .ok index =>
      match books.get? index with
      | none => ((b, some .outOfRange), l1)
      | some old =>
        let book : Book :=
          { old with
            Price := changedBook.Price
            Title := changedBook.Title
            Pages := changedBook.Pages
            Genres := changedBook.Genres }
        let books := books.set index book
        match E.MarshalIndent books with
        | none => ((b, some .marshal), l1)
        | some byteBooks =>
          match l1.storage.Truncate 0 with
          | (false, f1) => ((b, some .file), ⟨f1⟩)
          | (true, f1) =>
            match f1.Seek 0 with
            | (false, f2) => ((b, some .file), ⟨f2⟩)
            | (true, f2) =>
              match f2.Write byteBooks with
              | (false, f3) => ((book, some .file), ⟨f3⟩)
              | (true, f3) => ((book, none), ⟨f3⟩)

/-- The conversion `string(c)` of a byte: the UTF-8 encoding of the code
point with that number. -/
def stringOfByte (c : UInt8) : GoString :=
  if c.toNat < 128 then [c]
  else [UInt8.ofNat (192 + c.toNat / 64), UInt8.ofNat (128 + c.toNat % 64)]

/-- The string "<". -/
def opLess : GoString := [60]

/-- The string ">". -/
def opGreater : GoString := [62]

/-- The loop of `PriceFilter`: `wantedBooks` grows by the books that pass. -/
def PriceFilter.loop (operator : GoString) (price : Float64) : Books → Books → Books
  | [], wantedBooks => wantedBooks
  | book :: rest, wantedBooks =>
    if operator = opGreater then
      if book.Price.gt price then PriceFilter.loop operator price rest (wantedBooks ++ [book])
      else PriceFilter.loop operator price rest wantedBooks
    else
      if book.Price.lt price then PriceFilter.loop operator price rest (wantedBooks ++ [book])
      else PriceFilter.loop operator price rest wantedBooks

/-- `PriceFilter`. -/
def PriceFilter (E : Env) (filter : BookFilter) (l : library) : Except Err Books × library :=
  if filter.Price.length ≤ 1 then (.error .ErrNotValidData, l)
  else
    match filter.Price.head? with
    | none => (.error .outOfRange, l)
    | some c =>
      let operator := stringOfByte c
      if operator ≠ opLess ∧ operator ≠ opGreater then (.error .ErrUnsupportedOperation, l)
      else
        match GetBooks E l with
        | (.error err, l1) => (.error err, l1)
        | (.ok books, l1) =>
          match E.ParseFloat (filter.Price.drop 1) with
          | none => (.error .parseFloat, l1)
          | some price => (.ok (PriceFilter.loop operator price books []), l1)

/-- No failure is scheduled for the next `n` system calls. -/
def File.calm (f : File) (n : Nat) : Bool :=
  (f.faults.take n).all (fun x => !x)

/-- The record {"1", "A", 9.99, 100, ["sci-fi"]}. -/
def bookA : Book := ⟨[49], [65], .fin (mkRat 999 100), 100, some [[115, 99, 105, 45, 102, 105]]⟩

/-- The input {title "B", pages 50, price 5, genres ["drama"]}, without identifier. -/
def inputB : Book := ⟨[], [66], .fin 5, 50, some [[100, 114, 97, 109, 97]]⟩

/-- The record `inputB` with identifier "2". -/
def bookB : Book := ⟨[50], [66], .fin 5, 50, some [[100, 114, 97, 109, 97]]⟩

/-- A change for record "1": {"1", "C", 20, 7, ["x"]}. -/
def bookC : Book := ⟨[49], [67], .fin 20, 7, some [[120]]⟩

/-- A change for record "1" with all four fields at their zero values. -/
def blankA : Book := ⟨[49], [], .fin 0, 0, none⟩

/-- A second record with identifier "1". -/
def twinA : Book := ⟨[49], [68], .fin 12, 30, some [[120]]⟩

/-- The record `inputN` with identifier "2". -/
def bookN : Book := ⟨[50], [78], .fin (-5), -50, some []⟩

/-- One byte for each record of the shelf; other records are not encodable. -/
def shelfCode (b : Book) : Option UInt8 :=
  if b = bookA then some 1
  else if b = bookB then some 2
  else if b = bookC then some 3
  else if b = blankA then some 4
  else if b = twinA then some 5
  else if b = bookN then some 6
  else none

/-- The record a code byte stands for. -/
def shelfBook (c : UInt8) : Option Book :=
  if c = 1 then some bookA
  else if c = 2 then some bookB
  else if c = 3 then some bookC
  else if c = 4 then some blankA
  else if c = 5 then some twinA
  else if c = 6 then some bookN
  else none

/-- The encoder of the small environment. -/
def shelfMarshal : Books → Option (List UInt8)
  | [] => some []
  | b :: rest =>
    match shelfCode b, shelfMarshal rest with
    | some c, some cs => some (c :: cs)
    | _, _ => none

/-- The decoder of the small environment. -/
def shelfUnmarshal : List UInt8 → Option Books
  | [] => some []
  | c :: rest =>
    match shelfBook c, shelfUnmarshal rest with
    | some b, some bs => some (b :: bs)
    | _, _ => none

/-- Value of a string of decimal digits. -/
def decimal : GoString → Nat → Option Nat
  | [], acc => some acc
  | c :: rest, acc =>
    if 48 ≤ c.toNat ∧ c.toNat ≤ 57 then decimal rest (10 * acc + (c.toNat - 48)) else none

/-- The number parser of the small environment: non-empty strings of decimal
digits, where it agrees with `strconv.ParseFloat` on short inputs. -/
def shelfParseFloat (s : GoString) : Option Float64 :=
  if s = [] then none else (decimal s 0).map (fun n => Float64.fin n)

/-- The small environment. -/
def shelfEnv : Env := ⟨shelfMarshal, shelfUnmarshal, shelfParseFloat⟩

/-- A store over the given content, offset 0, nothing scheduled to fail. -/
def storeOf (data : List UInt8) : library := ⟨⟨data, 0, []⟩⟩

/-! Strings as the JSON codec stores them -/

/-- A record with its strings passed through `coerce`; numbers and the
nil-ness of the genres are kept. -/
def coerced (coerce : GoString → GoString) (b : Book) : Book :=
  ⟨coerce b.ID, coerce b.Title, b.Price, b.Pages, b.Genres.map (List.map coerce)⟩

/-- What `encoding/json` does to the strings of any sequence: the encoder
replaces bytes that are not valid UTF-8 by U+FFFD, so decoding an encoding
gives back the sequence with every string passed through that replacement,
here `coerce`; and whatever the decoder returns holds valid UTF-8 strings
only, which `coerce` leaves alone. -/
def Env.Coerces (E : Env) (coerce : GoString → GoString) : Prop :=
  (∀ (books : Books) (out : List UInt8), E.MarshalIndent books = some out →
    E.Unmarshal out = some (books.map (coerced coerce))) ∧
  (∀ (data : List UInt8) (books : Books), E.Unmarshal data = some books →
    books.map (coerced coerce) = books)

/-- The bytes of a text: its UTF-8 encoding, as Go holds a string. -/
def ofText (s : String) : GoString := s.toUTF8.data.toList

/-- The replacement of the byte 0xFF, which is never valid UTF-8, by the
three bytes of U+FFFD. -/
def replaceFF (s : GoString) : GoString :=
  s.flatMap (fun c => if c = 255 then [239, 191, 189] else [c])

/-- The input {title "\xff", pages 50, price 5, genres ["drama"]}, whose title
is not valid UTF-8. -/
def inputX : Book := ⟨[], [255], .fin 5, 50, some [[100, 114, 97, 109, 97]]⟩

/-- The record `inputX` with identifier "2" as stored: its title is U+FFFD. -/
def bookX : Book := ⟨[50], [239, 191, 189], .fin 5, 50, some [[100, 114, 97, 109, 97]]⟩

/-- A change for record "1" whose title "\xff" is not valid UTF-8. -/
def changeX : Book := ⟨[49], [255], .fin 20, 7, some [[120]]⟩

/-- The record `changeX` as stored: its title is U+FFFD. -/
def storedX : Book := ⟨[49], [239, 191, 189], .fin 20, 7, some [[120]]⟩

/-- One byte for each record of a second shelf. -/
def fffdCode (b : Book) : Option UInt8 :=
  if b = bookA then some 1
  else if b = bookX then some 2
  else if b = storedX then some 3
  else none

/-- The record a code byte of the second shelf stands for. -/
def fffdBook (c : UInt8) : Option Book :=
  if c = 1 then some bookA
  else if c = 2 then some bookX
  else if c = 3 then some storedX
  else none

/-- The encoder of the second shelf, on records already coerced. -/
def fffdMarshal : Books → Option (List UInt8)
  | [] => some []
  | b :: rest =>
    match fffdCode b, fffdMarshal rest with
    | some c, some cs => some (c :: cs)
    | _, _ => none

/-- The decoder of the second shelf. -/
def fffdUnmarshal : List UInt8 → Option Books
  | [] => some []
  | c :: rest =>
    match fffdBook c, fffdUnmarshal rest with
    | some b, some bs => some (b :: bs)
    | _, _ => none

/-- A small environment whose encoder replaces the byte 0xFF in strings by
U+FFFD before it writes, as `encoding/json` does. -/
def fffdEnv : Env :=
  ⟨fun books => fffdMarshal (books.map (coerced replaceFF)), fffdUnmarshal, shelfParseFloat⟩

/-! The file primitives -/

theorem tick_frame (f g : File) (b : Bool) (h : f.tick = (b, g)) :
    g.data = f.data ∧ g.off = f.off := by
  unfold File.tick at h
  split at h <;> simp only [Prod.mk.injEq] at h <;> obtain ⟨_, rfl⟩ := h <;> simp

theorem tick_of_calm (f g : File) (b : Bool) (n : Nat) (h : f.tick = (b, g))
    (hc : f.calm (n + 1) = true) : b = false ∧ g.calm n = true := by
  unfold File.calm at hc
  unfold File.tick at h
  unfold File.calm
  split at h
  · rename_i hf
    simp only [Prod.mk.injEq] at h
    obtain ⟨rfl, rfl⟩ := h
    simp [hf]
  · rename_i x rest hf
    simp only [Prod.mk.injEq] at h
    obtain ⟨rfl, rfl⟩ := h
    rw [hf] at hc
    simp only [List.take_succ_cons, List.all_cons, Bool.and_eq_true, Bool.not_eq_true'] at hc
    exact ⟨hc.1, hc.2⟩

theorem Seek_true (f g : File) (k : Nat) (h : f.Seek k = (true, g)) :
    g.data = f.data ∧ g.off = k := by
  unfold File.Seek at h
  rcases hx : f.tick with ⟨b, g0⟩
  obtain ⟨hd, _⟩ := tick_frame f g0 b hx
  rw [hx] at h
  cases b with
  | true => simp at h
  | false =>
    simp only [Prod.mk.injEq, true_and] at h
    subst h
    exact ⟨hd, rfl⟩

theorem ReadAll_some (f g : File) (out : List UInt8) (h : f.ReadAll = (some out, g)) :
    out = f.data.drop f.off ∧ g.data = f.data := by
  unfold File.ReadAll at h
  rcases hx : f.tick with ⟨b, g0⟩
  obtain ⟨hd, ho⟩ := tick_frame f g0 b hx
  rw [hx] at h
  cases b with
  | true => simp at h
  | false =>
    simp only [Prod.mk.injEq, Option.some.injEq] at h
    obtain ⟨h1, h2⟩ := h
    subst h1 h2
    simp [hd, ho]

theorem Truncate_true (f g : File) (k : Nat) (h : f.Truncate k = (true, g)) :
    g.data = f.data.take k ++ List.replicate (k - f.data.length) 0 ∧ g.off = f.off := by
  unfold File.Truncate at h
  rcases hx : f.tick with ⟨b, g0⟩
  obtain ⟨hd, ho⟩ := tick_frame f g0 b hx
  rw [hx] at h
  cases b with
  | true => simp at h
  | false =>
    simp only [Prod.mk.injEq, true_and] at h
    subst h
    simp [hd, ho]

theorem Write_true (f g : File) (b : List UInt8) (h : f.Write b = (true, g)) :
    g.data = f.data.take f.off ++ List.replicate (f.off - f.data.length) 0 ++ b
        ++ f.data.drop (f.off + b.length) ∧ g.off = f.off + b.length := by
  unfold File.Write at h
  rcases hx : f.tick with ⟨c, g0⟩
  obtain ⟨hd, ho⟩ := tick_frame f g0 c hx
  rw [hx] at h
  cases c with
  | true => simp at h
  | false =>
    simp only [Prod.mk.injEq, true_and] at h
    subst h
    simp [hd, ho]

theorem Seek_of_calm (f : File) (k n : Nat) (h : f.calm (n + 1) = true) :
    ∃ g, f.Seek k = (true, g) ∧ g.calm n = true := by
  rcases hx : f.tick with ⟨b, g0⟩
  obtain ⟨rfl, hc⟩ := tick_of_calm f g0 b n hx h
  unfold File.Seek
  rw [hx]
  exact ⟨_, rfl, by simpa [File.calm] using hc⟩

theorem ReadAll_of_calm (f : File) (n : Nat) (h : f.calm (n + 1) = true) :
    ∃ g, f.ReadAll = (some (f.data.drop f.off), g) ∧ g.calm n = true := by
  rcases hx : f.tick with ⟨b, g0⟩
  obtain ⟨rfl, hc⟩ := tick_of_calm f g0 b n hx h
  obtain ⟨hd, ho⟩ := tick_frame f g0 false hx
  unfold File.ReadAll
  rw [hx]
  simp only [hd, ho]
  exact ⟨_, rfl, by simpa [File.calm] using hc⟩

theorem Truncate_of_calm (f : File) (k n : Nat) (h : f.calm (n + 1) = true) :
    ∃ g, f.Truncate k = (true, g) ∧ g.calm n = true := by
  rcases hx : f.tick with ⟨b, g0⟩
  obtain ⟨rfl, hc⟩ := tick_of_calm f g0 b n hx h
  unfold File.Truncate
  rw [hx]
  exact ⟨_, rfl, by simpa [File.calm] using hc⟩

theorem Write_of_calm (f : File) (b : List UInt8) (n : Nat) (h : f.calm (n + 1) = true) :
    ∃ g, f.Write b = (true, g) ∧ g.calm n = true := by
  rcases hx : f.tick with ⟨c, g0⟩
  obtain ⟨rfl, hc⟩ := tick_of_calm f g0 c n hx h
  unfold File.Write
  rw [hx]
  exact ⟨_, rfl, by simpa [File.calm] using hc⟩

/-! Reading and rewriting the document -/

/-- `GetBooks` never changes the content of the document. -/
theorem GetBooks_data (E : Env) (l : library) :
    (GetBooks E l).2.storage.data = l.storage.data := by
  unfold GetBooks File.Seek File.ReadAll
  rcases hx : l.storage.tick with ⟨b, g⟩
  obtain ⟨h1, _⟩ := tick_frame _ _ _ hx
  cases b with
  | true => simpa using h1
  | false =>
    simp only
    rcases hy : File.tick { g with off := 0 } with ⟨c, g2⟩
    obtain ⟨h2, _⟩ := tick_frame _ _ _ hy
    simp only at h2
    cases c with
    | true => simp only; rw [h2]; exact h1
    | false =>
      simp only
      split <;> simp [h2, h1]

/-- A successful `GetBooks` returned the decoding of the whole content. -/
theorem GetBooks_ok (E : Env) (l l1 : library) (bs : Books) (h : GetBooks E l = (.ok bs, l1)) :
    E.Unmarshal l.storage.data = some bs ∧ l1.storage.data = l.storage.data := by
  have hd := GetBooks_data E l
  rw [h] at hd
  refine ⟨?_, hd⟩
  unfold GetBooks at h
  rcases hS : l.storage.Seek 0 with ⟨ok, f1⟩
  rw [hS] at h
  cases ok with
  | false => simp at h
  | true =>
    simp only at h
    obtain ⟨hd1, ho1⟩ := Seek_true _ _ _ hS
    rcases hR : f1.ReadAll with ⟨r, f2⟩
    rw [hR] at h
    cases r with
    | none => simp at h
    | some out =>
      simp only at h
      obtain ⟨hout, _⟩ := ReadAll_some _ _ _ hR
      rw [ho1, hd1, List.drop_zero] at hout
      subst hout
      split at h
      · simp at h
      · rename_i books hU
        simp only [Prod.mk.injEq, Except.ok.injEq] at h
        rw [hU, h.1]

/-- When the next two system calls do not fail, `GetBooks` returns the
decoding of the content. -/
theorem GetBooks_of_calm (E : Env) (l : library) (bs : Books) (n : Nat)
    (hc : l.storage.calm (n + 2) = true) (hU : E.Unmarshal l.storage.data = some bs) :
    ∃ l1, GetBooks E l = (.ok bs, l1) ∧ l1.storage.data = l.storage.data ∧
      l1.storage.calm n = true := by
  obtain ⟨f1, hS, hc1⟩ := Seek_of_calm l.storage 0 (n + 1) hc
  obtain ⟨hd1, ho1⟩ := Seek_true _ _ _ hS
  obtain ⟨f2, hR, hc2⟩ := ReadAll_of_calm f1 n hc1
  obtain ⟨_, hd2⟩ := ReadAll_some _ _ _ hR
  refine ⟨⟨f2⟩, ?_, by rw [hd2, hd1], hc2⟩
  unfold GetBooks
  rw [hS]
  simp only
  rw [hR]
  simp only [ho1, hd1, List.drop_zero, hU]

/-- A successful rewrite leaves exactly the written bytes as content. -/
theorem rewrite_ok (l l1 : library) (out : List UInt8) (h : rewrite l out = (none, l1)) :
    l1.storage.data = out ∧ l1.storage.off = out.length := by
  unfold rewrite at h
  rcases hT : l.storage.Truncate 0 with ⟨ok, f1⟩
  rw [hT] at h
  cases ok with
  | false => simp at h
  | true =>
    simp only at h
    obtain ⟨hd1, _⟩ := Truncate_true _ _ _ hT
    rcases hS : f1.Seek 0 with ⟨ok2, f2⟩
    rw [hS] at h
    cases ok2 with
    | false => simp at h
    | true =>
      simp only at h
      obtain ⟨hd2, ho2⟩ := Seek_true _ _ _ hS
      rcases hW : f2.Write out with ⟨ok3, f3⟩
      rw [hW] at h
      cases ok3 with
      | false => simp at h
      | true =>
        simp only [Prod.mk.injEq, true_and] at h
        obtain ⟨hd3, ho3⟩ := Write_true _ _ _ hW
        subst h
        simp only
        rw [hd3, ho3, ho2, hd2, hd1]
        simp

/-- When the next three system calls do not fail, the rewrite succeeds. -/
theorem rewrite_of_calm (l : library) (out : List UInt8) (n : Nat)
    (hc : l.storage.calm (n + 3) = true) :
    ∃ l1, rewrite l out = (none, l1) ∧ l1.storage.calm n = true := by
  obtain ⟨f1, hT, hc1⟩ := Truncate_of_calm l.storage 0 (n + 2) hc
  obtain ⟨f2, hS, hc2⟩ := Seek_of_calm f1 0 (n + 1) hc1
  obtain ⟨f3, hW, hc3⟩ := Write_of_calm f2 out n hc2
  refine ⟨⟨f3⟩, ?_, hc3⟩
  unfold rewrite
  rw [hT]
  simp only
  rw [hS]
  simp only
  rw [hW]

/-! Looking a record up by identifier -/

/-- A successful `wantedIndex` loop found the first record with the wanted
identifier: the sequence splits around it. -/
theorem loop_ok (id : GoString) (bs : Books) (k i : Nat)
    (h : wantedIndex.loop id bs k = .ok i) :
    ∃ pre x post, bs = pre ++ x :: post ∧ (∀ y ∈ pre, y.ID ≠ id) ∧ x.ID = id ∧
      i = k + pre.length := by
  induction bs generalizing k with
  | nil => simp [wantedIndex.loop] at h
  | cons b rest ih =>
    unfold wantedIndex.loop at h
    by_cases hb : id = b.ID
    · rw [if_pos hb] at h
      simp only [Except.ok.injEq] at h
      exact ⟨[], b, rest, rfl, by simp, hb.symm, by simp [h]⟩
    · rw [if_neg hb] at h
      obtain ⟨pre, x, post, hsplit, hpre, hx, hi⟩ := ih (k + 1) h
      refine ⟨b :: pre, x, post, by simp [hsplit], ?_, hx, by simp [hi]; omega⟩
      intro y hy
      rcases List.mem_cons.mp hy with rfl | hy
      · exact fun e => hb e.symm
      · exact hpre y hy

/-- A failed `wantedIndex` loop failed with `ErrNotFound`, and no record
carries the wanted identifier. -/
theorem loop_error (id : GoString) (bs : Books) (k : Nat) (e : Err)
    (h : wantedIndex.loop id bs k = .error e) :
    e = .ErrNotFound ∧ ∀ y ∈ bs, y.ID ≠ id := by
  induction bs generalizing k with
  | nil =>
    simp only [wantedIndex.loop, Except.error.injEq] at h
    exact ⟨h.symm, by simp⟩
  | cons b rest ih =>
    unfold wantedIndex.loop at h
    by_cases hb : id = b.ID
    · rw [if_pos hb] at h
      simp at h
    · rw [if_neg hb] at h
      obtain ⟨he, hrest⟩ := ih (k + 1) h
      refine ⟨he, ?_⟩
      intro y hy
      rcases List.mem_cons.mp hy with rfl | hy
      · exact fun e => hb e.symm
      · exact hrest y hy

/-- On a sequence split around the first record with the wanted identifier
the loop returns the position of that record. -/
theorem loop_of_split (id : GoString) (pre : Books) (x : Book) (post : Books) (k : Nat)
    (hpre : ∀ y ∈ pre, y.ID ≠ id) (hx : x.ID = id) :
    wantedIndex.loop id (pre ++ x :: post) k = .ok (k + pre.length) := by
  induction pre generalizing k with
  | nil => simp [wantedIndex.loop, hx]
  | cons b rest ih =>
    have hb : ¬ id = b.ID := fun e => hpre b (by simp) e.symm
    rw [List.cons_append]
    unfold wantedIndex.loop
    rw [if_neg hb, ih (k + 1) (fun y hy => hpre y (by simp [hy]))]
    simp only [List.length_cons]
    congr 1
    omega

/-- The scan of `GetBook` returns the first record with the wanted identifier. -/
theorem scan_of_split (id : GoString) (pre : Books) (x : Book) (post : Books)
    (hpre : ∀ y ∈ pre, y.ID ≠ id) (hx : x.ID = id) :
    GetBook.scan id (pre ++ x :: post) = .ok x := by
  induction pre with
  | nil => simp [GetBook.scan, hx]
  | cons b rest ih =>
    have hb : ¬ id = b.ID := fun e => hpre b (by simp) e.symm
    rw [List.cons_append]
    unfold GetBook.scan
    rw [if_neg hb]
    exact ih (fun y hy => hpre y (by simp [hy]))

/-- The scan of `GetBook` fails with `ErrNotFound` when no record carries the
wanted identifier. -/
theorem scan_absent (id : GoString) (bs : Books) (h : ∀ y ∈ bs, y.ID ≠ id) :
    GetBook.scan id bs = .error .ErrNotFound := by
  induction bs with
  | nil => rfl
  | cons b rest ih =>
    have hb : ¬ id = b.ID := fun e => h b (by simp) e.symm
    simp only [GetBook.scan, if_neg hb]
    exact ih (fun y hy => h y (by simp [hy]))

/-- A sequence with a record of the wanted identifier splits around the first
such record. -/
theorem split_of_mem (id : GoString) (bs : Books) (h : ∃ x ∈ bs, x.ID = id) :
    ∃ pre x post, bs = pre ++ x :: post ∧ (∀ y ∈ pre, y.ID ≠ id) ∧ x.ID = id := by
  induction bs with
  | nil => simp at h
  | cons b rest ih =>
    by_cases hb : b.ID = id
    · exact ⟨[], b, rest, rfl, by simp, hb⟩
    · obtain ⟨x, hxm, hx⟩ := h
      rcases List.mem_cons.mp hxm with rfl | hxm
      · exact absurd hx hb
      · obtain ⟨pre, y, post, hsplit, hpre, hy⟩ := ih ⟨x, hxm, hx⟩
        refine ⟨b :: pre, y, post, by simp [hsplit], ?_, hy⟩
        intro z hz
        rcases List.mem_cons.mp hz with rfl | hz
        · exact hb
        · exact hpre z hz

/-- A successful `CreateBook` passed the validation and left the encoding of
the old sequence followed by the prepared record. -/
theorem CreateBook_ok (E : Env) (fresh : GoString) (b : Book) (l l1 : library) (bs : Books)
    (hU : E.Unmarshal l.storage.data = some bs)
    (h : CreateBook E fresh b l = (none, l1)) :
    rejected b = false ∧
      E.MarshalIndent (bs ++ [PrepareToCreate fresh b]) = some l1.storage.data := by
  unfold CreateBook at h
  cases hr : rejected b with
  | true => rw [hr] at h; simp at h
  | false =>
  rw [hr] at h
  refine ⟨rfl, ?_⟩
  simp only [Bool.false_eq_true, if_false] at h
  rcases hG : GetBooks E l with ⟨r, l0⟩
  rw [hG] at h
  cases r with
  | error e => simp at h
  | ok books =>
    obtain ⟨hU2, hd⟩ := GetBooks_ok E l l0 books hG
    rw [hU] at hU2
    simp only [Option.some.injEq] at hU2
    subst hU2
    simp only at h
    split at h
    · simp at h
    · rename_i out hM
      obtain ⟨hw, _⟩ := rewrite_ok _ _ _ h
      rw [hM, hw]

/-- A successful `RemoveBook` left the encoding of the old sequence without
the first record that carries the identifier. -/
theorem RemoveBook_ok (E : Env) (id : GoString) (l l1 : library) (bs : Books)
    (hU : E.Unmarshal l.storage.data = some bs)
    (h : RemoveBook E id l = (none, l1)) :
    ∃ pre x post, bs = pre ++ x :: post ∧ (∀ y ∈ pre, y.ID ≠ id) ∧ x.ID = id ∧
      E.MarshalIndent (pre ++ post) = some l1.storage.data := by
  unfold RemoveBook at h
  rcases hG : GetBooks E l with ⟨r, l0⟩
  rw [hG] at h
  cases r with
  | error e => simp at h
  | ok books =>
    obtain ⟨hU2, hd⟩ := GetBooks_ok E l l0 books hG
    rw [hU] at hU2
    simp only [Option.some.injEq] at hU2
    subst hU2
    simp only at h
    cases hW : wantedIndex id bs with
    | error e => rw [hW] at h; simp at h
    | ok index =>
      rw [hW] at h
      simp only at h
      obtain ⟨pre, x, post, hsplit, hpre, hx, hi⟩ := loop_ok id bs 0 index hW
      refine ⟨pre, x, post, hsplit, hpre, hx, ?_⟩
      simp only [Nat.zero_add] at hi
      subst hi hsplit
      split at h
      · simp at h
      · have hcut : List.take pre.length (pre ++ x :: post)
            ++ List.drop (pre.length + 1) (pre ++ x :: post) = pre ++ post := by
          simp [List.take_append_eq_append_take, List.drop_append_eq_append_drop]
        rw [hcut] at h
        split at h
        · simp at h
        · rename_i out hM
          obtain ⟨hw, _⟩ := rewrite_ok _ _ _ h
          rw [hM, hw]

/-- The record `ChangeBook` writes in place of `old`. -/
theorem ChangeBook_ok (E : Env) (c r : Book) (l l1 : library) (bs : Books)
    (hU : E.Unmarshal l.storage.data = some bs)
    (h : ChangeBook E c l = ((r, none), l1)) :
    ∃ pre x post, bs = pre ++ x :: post ∧ (∀ y ∈ pre, y.ID ≠ c.ID) ∧ x.ID = c.ID ∧
      r = { x with Price := c.Price, Title := c.Title, Pages := c.Pages, Genres := c.Genres } ∧
      E.MarshalIndent (pre ++ r :: post) = some l1.storage.data := by
  unfold ChangeBook at h
  rcases hG : GetBooks E l with ⟨res, l0⟩
  rw [hG] at h
  cases res with
  | error e => simp at h
  | ok books =>
    obtain ⟨hU2, hd⟩ := GetBooks_ok E l l0 books hG
    rw [hU] at hU2
    simp only [Option.some.injEq] at hU2
    subst hU2
    simp only at h
    cases hW : wantedIndex c.ID bs with
    | error e => rw [hW] at h; simp at h
    | ok index =>
      rw [hW] at h
      simp only at h
      obtain ⟨pre, x, post, hsplit, hpre, hx, hi⟩ := loop_ok c.ID bs 0 index hW
      refine ⟨pre, x, post, hsplit, hpre, hx, ?_⟩
      simp only [Nat.zero_add] at hi
      subst hi hsplit
      have hget : (pre ++ x :: post).get? pre.length = some x := by
        rw [List.get?_eq_getElem?, List.getElem?_append_right (Nat.le_refl _)]
        simp
      rw [hget] at h
      simp only at h
      have hset : ∀ y : Book, (pre ++ x :: post).set pre.length y = pre ++ y :: post := by
        intro y; simp
      rw [hset] at h
      split at h
      · simp at h
      · rename_i out hM
        rcases hT : l0.storage.Truncate 0 with ⟨ok, f1⟩
        rw [hT] at h
        cases ok with
        | false => simp at h
        | true =>
          simp only at h
          rcases hS : f1.Seek 0 with ⟨ok2, f2⟩
          rw [hS] at h
          cases ok2 with
          | false => simp at h
          | true =>
            simp only at h
            rcases hWr : f2.Write out with ⟨ok3, f3⟩
            rw [hWr] at h
            cases ok3 with
            | false => simp at h
            | true =>
              simp only [Prod.mk.injEq, and_true] at h
              obtain ⟨hr, hl⟩ := h
              have hrw : rewrite l0 out = (none, ⟨f3⟩) := by
                unfold rewrite
                rw [hT]
                simp only
                rw [hS]
                simp only
                rw [hWr]
              obtain ⟨hw, _⟩ := rewrite_ok _ _ _ hrw
              subst hl
              refine ⟨hr.symm, ?_⟩
              rw [← hr, hM, hw]

/-! The small environment is lawful -/

theorem shelfBook_shelfCode (b : Book) (c : UInt8) (h : shelfCode b = some c) :
    shelfBook c = some b := by
  unfold shelfCode at h
  split_ifs at h with h1 h2 h3 h4 h5 h6 <;> simp only [Option.some.injEq] at h <;> subst h
  · rw [h1]; decide
  · rw [h2]; decide
  · rw [h3]; decide
  · rw [h4]; decide
  · rw [h5]; decide
  · rw [h6]; decide

theorem shelfEnv_lawful : shelfEnv.Lawful := by
  intro books
  induction books with
  | nil =>
    intro out h
    simp only [shelfEnv, shelfMarshal, Option.some.injEq] at h
    subst h
    rfl
  | cons b rest ih =>
    intro out h
    simp only [shelfEnv] at h ih ⊢
    unfold shelfMarshal at h
    split at h
    · rename_i c cs hc hcs
      simp only [Option.some.injEq] at h
      subst h
      unfold shelfUnmarshal
      rw [shelfBook_shelfCode b c hc, ih cs hcs]
    · simp at h

/-! The codec that coerces strings -/

/-- A codec that gives back every sequence unchanged coerces with the
identity. -/
theorem Coerces_of_Lawful (E : Env) (h : E.Lawful) : E.Coerces id := by
  have hid : ∀ books : Books, books.map (coerced id) = books := by
    intro books
    induction books with
    | nil => rfl
    | cons b rest ih =>
      rw [List.map_cons, ih]
      cases b with
      | mk i t p n g => cases g <;> simp [coerced]
  exact ⟨fun books out hM => by rw [hid]; exact h books out hM, fun _ books _ => hid books⟩

/-- A sequence that the coercion leaves alone is left alone record by
record around any split. -/
theorem coerced_split (coerce : GoString → GoString) (pre : Books) (x : Book) (post : Books)
    (h : (pre ++ x :: post).map (coerced coerce) = pre ++ x :: post) :
    pre.map (coerced coerce) = pre ∧ coerced coerce x = x ∧
      post.map (coerced coerce) = post := by
  rw [List.map_append, List.map_cons] at h
  obtain ⟨h1, h2⟩ := List.append_inj h (by simp)
  simp only [List.cons.injEq] at h2
  exact ⟨h1, h2.1, h2.2⟩

/-- The second shelf: a code byte stands for the record it was given for. -/
theorem fffdBook_fffdCode (b : Book) (c : UInt8) (h : fffdCode b = some c) :
    fffdBook c = some b := by
  unfold fffdCode at h
  split_ifs at h with h1 h2 h3 <;> simp only [Option.some.injEq] at h <;> subst h
  · rw [h1]; decide
  · rw [h2]; decide
  · rw [h3]; decide

/-- The records of the second shelf hold no byte 0xFF. -/
theorem fffdBook_fixed (b : Book) (c : UInt8) (h : fffdBook c = some b) :
    coerced replaceFF b = b := by
  unfold fffdBook at h
  split_ifs at h <;> simp only [Option.some.injEq] at h <;> subst h <;> decide

/-- The second shelf decodes what it encoded. -/
theorem fffd_roundtrip (books : Books) (out : List UInt8) (h : fffdMarshal books = some out) :
    fffdUnmarshal out = some books := by
  induction books generalizing out with
  | nil =>
    simp only [fffdMarshal, Option.some.injEq] at h
    subst h
    rfl
  | cons b rest ih =>
    unfold fffdMarshal at h
    split at h
    · rename_i c cs hc hcs
      simp only [Option.some.injEq] at h
      subst h
      unfold fffdUnmarshal
      rw [fffdBook_fffdCode b c hc, ih cs hcs]
    · simp at h

/-- What the second shelf decodes holds no byte 0xFF. -/
theorem fffd_decoded (data : List UInt8) (books : Books) (h : fffdUnmarshal data = some books) :
    books.map (coerced replaceFF) = books := by
  induction data generalizing books with
  | nil =>
    simp only [fffdUnmarshal, Option.some.injEq] at h
    subst h
    rfl
  | cons c rest ih =>
    unfold fffdUnmarshal at h
    split at h
    · rename_i b bs hb hbs
      simp only [Option.some.injEq] at h
      subst h
      rw [List.map_cons, fffdBook_fixed b c hb, ih bs hbs]
    · simp at h

/-- The second small environment coerces with the replacement of 0xFF. -/
theorem fffdEnv_coerces : fffdEnv.Coerces replaceFF :=
  ⟨fun _ out hM => fffd_roundtrip _ out hM, fun data books hU => fffd_decoded data books hU⟩

/-! C1 to C5 -/

/-- C1 as stated fails for a title that is not valid UTF-8: with the title
"\xff" CreateBook succeeds, and GetBook of the new identifier returns a record
whose title is U+FFFD, not the title of b. -/
theorem create_then_get_invalid_title :
    fffdEnv.Unmarshal (storeOf [1]).storage.data = some [bookA] ∧
    rejected inputX = false ∧
    CreateBook fffdEnv [50] inputX (storeOf [1]) = (none, ⟨⟨[1, 2], 2, []⟩⟩) ∧
    GetBook fffdEnv [50] ⟨⟨[1, 2], 2, []⟩⟩ = (.ok bookX, ⟨⟨[1, 2], 2, []⟩⟩) ∧
    bookX.Title ≠ inputX.Title := by
  decide

/-- C1, amended: when the document decodes to bs and the identifier handed
out by the generator is fresh for bs and stored as it is, then after a
successful CreateBook(b) a GetBook of that identifier, not hit by a failing
system call, succeeds and returns a record with the pages and price of b and
with the title and genres of b as the codec stores strings (invalid UTF-8
replaced by U+FFFD), hence those of b when they are valid UTF-8; its
identifier is the new one, is non-empty and is carried by no record of bs. -/
theorem create_then_get (E : Env) (coerce : GoString → GoString) (hE : E.Coerces coerce)
    (fresh : GoString) (b : Book) (l l1 : library) (bs : Books)
    (hU : E.Unmarshal l.storage.data = some bs)
    (hfresh : FreshID fresh bs)
    (hid : coerce fresh = fresh)
    (hok : CreateBook E fresh b l = (none, l1))
    (hcalm : l1.storage.calm 2 = true) :
    ∃ r l2, GetBook E fresh l1 = (.ok r, l2) ∧ r.Title = coerce b.Title ∧ r.Pages = b.Pages ∧
      r.Price = b.Price ∧ r.Genres = b.Genres.map (List.map coerce) ∧
      (coerce b.Title = b.Title → r.Title = b.Title) ∧
      (b.Genres.map (List.map coerce) = b.Genres → r.Genres = b.Genres) ∧
      r.ID = fresh ∧ r.ID ≠ [] ∧ ∀ x ∈ bs, x.ID ≠ r.ID := by
  obtain ⟨_, hM⟩ := CreateBook_ok E fresh b l l1 bs hU hok
  have hU1 : E.Unmarshal l1.storage.data
      = some (bs ++ [coerced coerce (PrepareToCreate fresh b)]) := by
    rw [hE.1 _ _ hM, List.map_append, hE.2 _ _ hU]
    rfl
  obtain ⟨l2, hG, _, _⟩ := GetBooks_of_calm E l1 _ 0 hcalm hU1
  have hrid : (coerced coerce (PrepareToCreate fresh b)).ID = fresh := hid
  refine ⟨coerced coerce (PrepareToCreate fresh b), l2, ?_, rfl, rfl, rfl, rfl,
    fun h => h, fun h => h, hrid, ?_, ?_⟩
  · unfold GetBook
    rw [hG]
    simp only
    rw [scan_of_split fresh bs _ [] hfresh.2 hrid]
  · rw [hrid]; exact hfresh.1
  · rw [hrid]; exact hfresh.2

/-- C1 amended, run on the store holding record "1": creating the record
with title "\xff" under the fresh identifier "2" and reading "2" back. -/
theorem create_then_get_witness :
    fffdEnv.Unmarshal (storeOf [1]).storage.data = some [bookA] ∧
    FreshID [50] [bookA] ∧
    replaceFF [50] = [50] ∧
    CreateBook fffdEnv [50] inputX (storeOf [1]) = (none, ⟨⟨[1, 2], 2, []⟩⟩) ∧
    ∃ r l2, GetBook fffdEnv [50] ⟨⟨[1, 2], 2, []⟩⟩ = (.ok r, l2) ∧
      r.Title = replaceFF inputX.Title ∧ r.Pages = inputX.Pages ∧
      r.Price = inputX.Price ∧ r.Genres = inputX.Genres.map (List.map replaceFF) ∧
      (replaceFF inputX.Title = inputX.Title → r.Title = inputX.Title) ∧
      (inputX.Genres.map (List.map replaceFF) = inputX.Genres → r.Genres = inputX.Genres) ∧
      r.ID = [50] ∧ r.ID ≠ [] ∧ ∀ x ∈ [bookA], x.ID ≠ r.ID :=
  ⟨by decide, ⟨by decide, by decide⟩, by decide, by decide,
    create_then_get fffdEnv replaceFF fffdEnv_coerces [50] inputX (storeOf [1])
      ⟨⟨[1, 2], 2, []⟩⟩ [bookA] (by decide) ⟨by decide, by decide⟩ (by decide) (by decide)
      (by decide)⟩

/-- C2 as stated fails when two records carry the identifier: on the
document ["1" (A), "1" (D)] RemoveBook("1") succeeds and GetBook("1") then
succeeds, returning the second record. -/
theorem remove_then_get_twin :
    shelfEnv.Unmarshal (storeOf [1, 5]).storage.data = some [bookA, twinA] ∧
    bookA.ID = [49] ∧
    RemoveBook shelfEnv [49] (storeOf [1, 5]) = (none, ⟨⟨[5], 1, []⟩⟩) ∧
    GetBook shelfEnv [49] ⟨⟨[5], 1, []⟩⟩ = (.ok twinA, ⟨⟨[5], 1, []⟩⟩) := by
  decide

/-- C2, amended: when the document decodes to a sequence in which exactly one
record carries id, then after a successful RemoveBook(id) a GetBook(id) (not
hit by a failing system call) fails with ErrNotFound. -/
theorem remove_then_get (E : Env) (hE : E.Lawful) (id : GoString) (l l1 : library)
    (bs : Books)
    (hU : E.Unmarshal l.storage.data = some bs)
    (hone : bs.countP (fun x => decide (x.ID = id)) = 1)
    (hok : RemoveBook E id l = (none, l1))
    (hcalm : l1.storage.calm 2 = true) :
    ∃ l2, GetBook E id l1 = (.error .ErrNotFound, l2) := by
  obtain ⟨pre, x, post, hsplit, hpre, hx, hM⟩ := RemoveBook_ok E id l l1 bs hU hok
  have hU1 := hE _ _ hM
  obtain ⟨l2, hG, _, _⟩ := GetBooks_of_calm E l1 _ 0 hcalm hU1
  refine ⟨l2, ?_⟩
  unfold GetBook
  rw [hG]
  simp only
  rw [scan_absent]
  subst hsplit
  have h0 : pre.countP (fun x => decide (x.ID = id)) = 0 := by
    rw [List.countP_eq_zero]
    intro y hy
    simpa using hpre y hy
  rw [List.countP_append, List.countP_cons, h0] at hone
  simp only [hx, decide_True, if_true] at hone
  have h1 : post.countP (fun x => decide (x.ID = id)) = 0 := by omega
  rw [List.countP_eq_zero] at h1
  intro y hy
  rcases List.mem_append.mp hy with hy | hy
  · exact hpre y hy
  · simpa using h1 y hy

/-- C2 amended, run on the document ["1", "2"]: removing "1" and reading "1". -/
theorem remove_then_get_witness :
    shelfEnv.Unmarshal (storeOf [1, 2]).storage.data = some [bookA, bookB] ∧
    [bookA, bookB].countP (fun x => decide (x.ID = [49])) = 1 ∧
    RemoveBook shelfEnv [49] (storeOf [1, 2]) = (none, ⟨⟨[2], 1, []⟩⟩) ∧
    ∃ l2, GetBook shelfEnv [49] ⟨⟨[2], 1, []⟩⟩ = (.error .ErrNotFound, l2) :=
  ⟨by decide, by decide, by decide,
    remove_then_get shelfEnv shelfEnv_lawful [49] (storeOf [1, 2]) ⟨⟨[2], 1, []⟩⟩
      [bookA, bookB] (by decide) (by decide) (by decide) (by decide)⟩

/-- C3: when the document decodes to bs, then after a successful
RemoveBook(id) the document decodes to bs without the first record whose ID
is id: bs is pre, x, post with x the first record carrying id, the new
sequence is pre followed by post, every record unmodified and in its place,
and its length is the length of bs minus one. -/
theorem remove_erases_first (E : Env) (hE : E.Lawful) (id : GoString) (l l1 : library)
    (bs : Books)
    (hU : E.Unmarshal l.storage.data = some bs)
    (hok : RemoveBook E id l = (none, l1)) :
    ∃ pre x post, bs = pre ++ x :: post ∧ (∀ y ∈ pre, y.ID ≠ id) ∧ x.ID = id ∧
      E.Unmarshal l1.storage.data = some (pre ++ post) ∧
      (pre ++ post).length = bs.length - 1 := by
  obtain ⟨pre, x, post, hsplit, hpre, hx, hM⟩ := RemoveBook_ok E id l l1 bs hU hok
  exact ⟨pre, x, post, hsplit, hpre, hx, hE _ _ hM, by simp [hsplit]⟩

/-- C3, run on the document ["1", "2", "1" (D)]: removing "1". -/
theorem remove_erases_first_witness :
    shelfEnv.Unmarshal (storeOf [2, 1, 5]).storage.data = some [bookB, bookA, twinA] ∧
    RemoveBook shelfEnv [49] (storeOf [2, 1, 5]) = (none, ⟨⟨[2, 5], 2, []⟩⟩) ∧
    ∃ pre x post, [bookB, bookA, twinA] = pre ++ x :: post ∧ (∀ y ∈ pre, y.ID ≠ [49]) ∧
      x.ID = [49] ∧
      shelfEnv.Unmarshal (⟨⟨[2, 5], 2, []⟩⟩ : library).storage.data = some (pre ++ post) ∧
      (pre ++ post).length = [bookB, bookA, twinA].length - 1 :=
  ⟨by decide, by decide,
    remove_erases_first shelfEnv shelfEnv_lawful [49] (storeOf [2, 1, 5]) ⟨⟨[2, 5], 2, []⟩⟩
      [bookB, bookA, twinA] (by decide) (by decide)⟩

/-- C5 as stated fails for a title that is not valid UTF-8: ChangeBook with
the title "\xff" succeeds and returns the record with that title, while the
record in the document then has the title U+FFFD, so the returned record is
not the stored one. -/
theorem change_overwrites_invalid_title :
    fffdEnv.Unmarshal (storeOf [1]).storage.data = some [bookA] ∧
    ChangeBook fffdEnv changeX (storeOf [1]) = ((changeX, none), ⟨⟨[3], 1, []⟩⟩) ∧
    fffdEnv.Unmarshal [3] = some [storedX] ∧
    storedX ≠ changeX ∧ storedX.Title ≠ changeX.Title := by
  decide

/-- C5, amended: when the document decodes to bs, a successful ChangeBook(c)
returns a record r that keeps the identifier of the first record carrying
the ID of c and has the price, title, pages and genres of c, whatever their
values; the document then decodes to bs with that first record replaced by r
as the codec stores it, its strings coerced (invalid UTF-8 replaced by
U+FFFD): same identifier, price and pages of c, title and genres of c
coerced; it is r itself when the title and genres of c are valid UTF-8. The
records before and after, their order and the length are as in bs. -/
theorem change_overwrites (E : Env) (coerce : GoString → GoString) (hE : E.Coerces coerce)
    (c r : Book) (l l1 : library) (bs : Books)
    (hU : E.Unmarshal l.storage.data = some bs)
    (hok : ChangeBook E c l = ((r, none), l1)) :
    ∃ pre x post s, bs = pre ++ x :: post ∧ (∀ y ∈ pre, y.ID ≠ c.ID) ∧ x.ID = c.ID ∧
      E.Unmarshal l1.storage.data = some (pre ++ s :: post) ∧
      s.ID = x.ID ∧ s.Price = c.Price ∧ s.Title = coerce c.Title ∧ s.Pages = c.Pages ∧
      s.Genres = c.Genres.map (List.map coerce) ∧
      r.ID = x.ID ∧ r.Price = c.Price ∧ r.Title = c.Title ∧ r.Pages = c.Pages ∧
      r.Genres = c.Genres ∧
      (coerce c.Title = c.Title → c.Genres.map (List.map coerce) = c.Genres → s = r) ∧
      (pre ++ s :: post).length = bs.length := by
  obtain ⟨pre, x, post, hsplit, hpre, hx, hr, hM⟩ := ChangeBook_ok E c r l l1 bs hU hok
  have hfix := hE.2 _ _ hU
  rw [hsplit] at hfix
  obtain ⟨hpre1, hx1, hpost1⟩ := coerced_split coerce pre x post hfix
  have hxid : coerce x.ID = x.ID := congrArg Book.ID hx1
  have hU1 : E.Unmarshal l1.storage.data = some (pre ++ coerced coerce r :: post) := by
    rw [hE.1 _ _ hM, List.map_append, List.map_cons, hpre1, hpost1]
  have hsid : (coerced coerce r).ID = x.ID := by
    rw [hr]; exact hxid
  refine ⟨pre, x, post, coerced coerce r, hsplit, hpre, hx, hU1, hsid, ?_, ?_, ?_, ?_,
    ?_, ?_, ?_, ?_, ?_, ?_, by simp [hsplit]⟩
  · rw [hr]; rfl
  · rw [hr]; rfl
  · rw [hr]; rfl
  · rw [hr]; rfl
  · rw [hr]
  · rw [hr]
  · rw [hr]
  · rw [hr]
  · rw [hr]
  · intro ht hg
    rw [hr]
    simp only [coerced, hxid, ht, hg]

/-- C5 amended, run on the document ["1"]: changing "1" to the record with
title "\xff"; the stored record has the title U+FFFD. -/
theorem change_overwrites_witness :
    fffdEnv.Unmarshal (storeOf [1]).storage.data = some [bookA] ∧
    ChangeBook fffdEnv changeX (storeOf [1]) = ((changeX, none), ⟨⟨[3], 1, []⟩⟩) ∧
    fffdEnv.Unmarshal (⟨⟨[3], 1, []⟩⟩ : library).storage.data = some [storedX] ∧
    ∃ pre x post s, [bookA] = pre ++ x :: post ∧ (∀ y ∈ pre, y.ID ≠ changeX.ID) ∧
      x.ID = changeX.ID ∧
      fffdEnv.Unmarshal (⟨⟨[3], 1, []⟩⟩ : library).storage.data = some (pre ++ s :: post) ∧
      s.ID = x.ID ∧ s.Price = changeX.Price ∧ s.Title = replaceFF changeX.Title ∧
      s.Pages = changeX.Pages ∧ s.Genres = changeX.Genres.map (List.map replaceFF) ∧
      changeX.ID = x.ID ∧ changeX.Price = changeX.Price ∧ changeX.Title = changeX.Title ∧
      changeX.Pages = changeX.Pages ∧ changeX.Genres = changeX.Genres ∧
      (replaceFF changeX.Title = changeX.Title →
        changeX.Genres.map (List.map replaceFF) = changeX.Genres → s = changeX) ∧
      (pre ++ s :: post).length = [bookA].length :=
  ⟨by decide, by decide, by decide,
    change_overwrites fffdEnv replaceFF fffdEnv_coerces changeX changeX (storeOf [1])
      ⟨⟨[3], 1, []⟩⟩ [bookA] (by decide) (by decide)⟩

/-! The price filter -/

/-- The conversion of a byte gives the string "<" only for the byte '<'. -/
theorem stringOfByte_eq_opLess (c : UInt8) : stringOfByte c = opLess ↔ c = 60 := by
  unfold stringOfByte opLess
  split
  · simp
  · rename_i h
    simp only [List.cons.injEq, and_false, false_iff, reduceCtorEq]
    rintro rfl
    exact h (by decide)

/-- The conversion of a byte gives the string ">" only for the byte '>'. -/
theorem stringOfByte_eq_opGreater (c : UInt8) : stringOfByte c = opGreater ↔ c = 62 := by
  unfold stringOfByte opGreater
  split
  · simp
  · rename_i h
    simp only [List.cons.injEq, and_false, false_iff, reduceCtorEq]
    rintro rfl
    exact h (by decide)

/-- The loop of `PriceFilter` appends, in order, the books that pass. -/
theorem PriceFilter_loop_eq (operator : GoString) (price : Float64) (bs acc : Books) :
    PriceFilter.loop operator price bs acc =
      acc ++ bs.filter (fun b =>
        if operator = opGreater then b.Price.gt price else b.Price.lt price) := by
  induction bs generalizing acc with
  | nil => simp [PriceFilter.loop]
  | cons b rest ih =>
    unfold PriceFilter.loop
    rw [List.filter_cons]
    split_ifs <;> rw [ih] <;> rename_i h1 h2 <;> simp [h1]

/-- A value equal to `n` is neither greater nor less than `n`. -/
theorem Float64.not_lt_of_eq (x n : Float64) (h : x.eq n = true) :
    x.gt n = false ∧ x.lt n = false := by
  cases x <;> cases n <;> simp_all [Float64.eq, Float64.gt, Float64.lt]

/-- The errors of `GetBooks` are those of the file and of the decoder. -/
theorem GetBooks_error (E : Env) (l l1 : library) (e : Err)
    (h : GetBooks E l = (.error e, l1)) : e = .file ∨ e = .unmarshal := by
  unfold GetBooks at h
  split at h
  · simp only [Prod.mk.injEq, Except.error.injEq] at h
    exact Or.inl h.1.symm
  · split at h
    · simp only [Prod.mk.injEq, Except.error.injEq] at h
      exact Or.inl h.1.symm
    · split at h
      · simp only [Prod.mk.injEq, Except.error.injEq] at h
        exact Or.inr h.1.symm
      · simp at h

/-- What `PriceFilter` does once the length and the operator are accepted. -/
theorem PriceFilter_accepted (E : Env) (c : UInt8) (rest : GoString) (l : library)
    (hc : c = 60 ∨ c = 62) (hrest : rest ≠ []) :
    PriceFilter E ⟨c :: rest⟩ l =
      match GetBooks E l with
      | (.error err, l1) => (.error err, l1)
      | (.ok books, l1) =>
        match E.ParseFloat rest with
        | none => (.error .parseFloat, l1)
        | some price => (.ok (PriceFilter.loop (stringOfByte c) price books []), l1) := by
  have hlen : ¬ (c :: rest).length ≤ 1 := by
    cases rest with
    | nil => exact absurd rfl hrest
    | cons a t => simp
  have hop : ¬ (stringOfByte c ≠ opLess ∧ stringOfByte c ≠ opGreater) := by
    rw [Ne, Ne, stringOfByte_eq_opLess, stringOfByte_eq_opGreater]
    tauto
  unfold PriceFilter
  simp only [hlen, if_false, List.head?_cons, hop, List.drop_one, List.tail_cons]

/-- C6: when the document decodes to bs, the text after the operator parses
as n and the read is not hit by a failing system call, PriceFilter with
'>' returns exactly the records of bs whose price is greater than n, and
with '<' exactly those whose price is less than n, each as often and in the
order it occurs in bs; a record whose price equals n is in neither result. -/
theorem price_filter_strict (E : Env) (hempty : E.ParseFloat [] = none) (n : Float64)
    (rest : GoString) (l : library) (bs : Books)
    (hU : E.Unmarshal l.storage.data = some bs)
    (hP : E.ParseFloat rest = some n)
    (hcalm : l.storage.calm 2 = true) :
    (∃ l1, PriceFilter E ⟨62 :: rest⟩ l = (.ok (bs.filter (fun b => b.Price.gt n)), l1)) ∧
    (∃ l1, PriceFilter E ⟨60 :: rest⟩ l = (.ok (bs.filter (fun b => b.Price.lt n)), l1)) ∧
    (∀ b, b.Price.eq n = true →
      b ∉ bs.filter (fun b => b.Price.gt n) ∧ b ∉ bs.filter (fun b => b.Price.lt n)) := by
  have hrest : rest ≠ [] := by
    intro h0
    rw [h0, hempty] at hP
    simp at hP
  obtain ⟨l1, hG, _, _⟩ := GetBooks_of_calm E l bs 0 hcalm hU
  refine ⟨⟨l1, ?_⟩, ⟨l1, ?_⟩, ?_⟩
  · rw [PriceFilter_accepted E 62 rest l (Or.inr rfl) hrest, hG]
    simp only [hP, PriceFilter_loop_eq, List.nil_append]
    have h62 : stringOfByte 62 = opGreater := by decide
    simp [h62]
  · rw [PriceFilter_accepted E 60 rest l (Or.inl rfl) hrest, hG]
    simp only [hP, PriceFilter_loop_eq, List.nil_append]
    have h60 : ¬ stringOfByte 60 = opGreater := by decide
    simp [h60]
  · intro b hb
    obtain ⟨h1, h2⟩ := Float64.not_lt_of_eq b.Price n hb
    simp [List.mem_filter, h1, h2]

/-- C6, run on the document ["1" (9.99), "2" (5), "1" (12)] with the filters
">10" and "<10". -/
theorem price_filter_strict_witness :
    shelfEnv.ParseFloat [] = none ∧
    shelfEnv.Unmarshal (storeOf [1, 2, 5]).storage.data = some [bookA, bookB, twinA] ∧
    shelfEnv.ParseFloat [49, 48] = some (.fin 10) ∧
    PriceFilter shelfEnv ⟨[62, 49, 48]⟩ (storeOf [1, 2, 5]) = (.ok [twinA], ⟨⟨[1, 2, 5], 3, []⟩⟩) ∧
    PriceFilter shelfEnv ⟨[60, 49, 48]⟩ (storeOf [1, 2, 5])
      = (.ok [bookA, bookB], ⟨⟨[1, 2, 5], 3, []⟩⟩) ∧
    ((∃ l1, PriceFilter shelfEnv ⟨[62, 49, 48]⟩ (storeOf [1, 2, 5])
        = (.ok ([bookA, bookB, twinA].filter (fun b => b.Price.gt (.fin 10))), l1)) ∧
      (∃ l1, PriceFilter shelfEnv ⟨[60, 49, 48]⟩ (storeOf [1, 2, 5])
        = (.ok ([bookA, bookB, twinA].filter (fun b => b.Price.lt (.fin 10))), l1)) ∧
      (∀ b, b.Price.eq (.fin 10) = true →
        b ∉ [bookA, bookB, twinA].filter (fun b => b.Price.gt (.fin 10)) ∧
        b ∉ [bookA, bookB, twinA].filter (fun b => b.Price.lt (.fin 10)))) :=
  ⟨by decide, by decide, by decide, by decide, by decide,
    price_filter_strict shelfEnv (by decide) (.fin 10) [49, 48] (storeOf [1, 2, 5])
      [bookA, bookB, twinA] (by decide) (by decide) (by decide)⟩

/-- C7 as stated fails for a string of one character that takes several
bytes: the text "€" has one character and three bytes, so it passes the
length check and PriceFilter fails with ErrUnsupportedOperation, not with
ErrNotValidData. -/
theorem price_filter_one_character :
    "€".length = 1 ∧
    ofText "€" = [226, 130, 172] ∧
    PriceFilter shelfEnv ⟨ofText "€"⟩ (storeOf [1])
      = (.error .ErrUnsupportedOperation, storeOf [1]) ∧
    Err.ErrUnsupportedOperation ≠ Err.ErrNotValidData := by
  decide

/-- C7, amended: in every store state, PriceFilter fails with ErrNotValidData
when the filter string has fewer than 2 bytes (the length of a Go string
counts its bytes), and with ErrUnsupportedOperation when the string has at
least 2 bytes and its first byte is neither '<' nor '>'; the store is not
touched. -/
theorem price_filter_malformed (E : Env) (filter : BookFilter) (l : library) :
    (filter.Price.length < 2 → PriceFilter E filter l = (.error .ErrNotValidData, l)) ∧
    (∀ c, 2 ≤ filter.Price.length → filter.Price.head? = some c → c ≠ 60 → c ≠ 62 →
      PriceFilter E filter l = (.error .ErrUnsupportedOperation, l)) := by
  constructor
  · intro h
    have h1 : filter.Price.length ≤ 1 := by omega
    unfold PriceFilter
    rw [if_pos h1]
  · intro c hlen hc h60 h62
    have h1 : ¬ filter.Price.length ≤ 1 := by omega
    have hop : stringOfByte c ≠ opLess ∧ stringOfByte c ≠ opGreater := by
      rw [Ne, Ne, stringOfByte_eq_opLess, stringOfByte_eq_opGreater]
      exact ⟨h60, h62⟩
    unfold PriceFilter
    rw [if_neg h1, hc]
    simp only
    rw [if_pos hop]

/-- C7 amended, run on a store whose content does not decode and whose next
system call fails: the filters "", "x", "<", "=5" and the three bytes of "€". -/
theorem price_filter_malformed_witness :
    shelfEnv.Unmarshal [9] = none ∧
    PriceFilter shelfEnv ⟨[]⟩ ⟨⟨[9], 4, [true]⟩⟩ = (.error .ErrNotValidData, ⟨⟨[9], 4, [true]⟩⟩) ∧
    PriceFilter shelfEnv ⟨[120]⟩ ⟨⟨[9], 4, [true]⟩⟩
      = (.error .ErrNotValidData, ⟨⟨[9], 4, [true]⟩⟩) ∧
    PriceFilter shelfEnv ⟨[60]⟩ ⟨⟨[9], 4, [true]⟩⟩
      = (.error .ErrNotValidData, ⟨⟨[9], 4, [true]⟩⟩) ∧
    PriceFilter shelfEnv ⟨[61, 53]⟩ ⟨⟨[9], 4, [true]⟩⟩
      = (.error .ErrUnsupportedOperation, ⟨⟨[9], 4, [true]⟩⟩) ∧
    PriceFilter shelfEnv ⟨[226, 130, 172]⟩ ⟨⟨[9], 4, [true]⟩⟩
      = (.error .ErrUnsupportedOperation, ⟨⟨[9], 4, [true]⟩⟩) :=
  ⟨by decide,
    (price_filter_malformed shelfEnv ⟨[]⟩ ⟨⟨[9], 4, [true]⟩⟩).1 (by decide),
    (price_filter_malformed shelfEnv ⟨[120]⟩ ⟨⟨[9], 4, [true]⟩⟩).1 (by decide),
    (price_filter_malformed shelfEnv ⟨[60]⟩ ⟨⟨[9], 4, [true]⟩⟩).1 (by decide),
    (price_filter_malformed shelfEnv ⟨[61, 53]⟩ ⟨⟨[9], 4, [true]⟩⟩).2 61 (by decide) (by decide)
      (by decide) (by decide),
    (price_filter_malformed shelfEnv ⟨[226, 130, 172]⟩ ⟨⟨[9], 4, [true]⟩⟩).2 226 (by decide)
      (by decide) (by decide) (by decide)⟩

/-- C8 as stated fails: on the document ["1"] the filter ">abc", whose
remainder does not parse, makes PriceFilter fail with the error of
strconv.ParseFloat, not with ErrNotValidData. -/
theorem price_filter_unparsable_abc :
    shelfEnv.ParseFloat [97, 98, 99] = none ∧
    PriceFilter shelfEnv ⟨[62, 97, 98, 99]⟩ (storeOf [1])
      = (.error .parseFloat, ⟨⟨[1], 1, []⟩⟩) ∧
    Err.parseFloat ≠ Err.ErrNotValidData := by
  decide

/-- C8, amended: for a filter string whose first byte is '<' or '>' and
whose non-empty remainder does not parse as a number, PriceFilter fails: when
the document was read and decoded, with the error of strconv.ParseFloat; when
it was not, with the error of that read or decoding. In no case is the error
ErrNotValidData. -/
theorem price_filter_unparsable (E : Env) (c : UInt8) (rest : GoString) (l : library)
    (hc : c = 60 ∨ c = 62) (hrest : rest ≠ []) (hP : E.ParseFloat rest = none) :
    (∀ bs l1, GetBooks E l = (.ok bs, l1) →
      PriceFilter E ⟨c :: rest⟩ l = (.error .parseFloat, l1)) ∧
    (∀ e l1, GetBooks E l = (.error e, l1) →
      PriceFilter E ⟨c :: rest⟩ l = (.error e, l1) ∧ (e = .file ∨ e = .unmarshal)) ∧
    (∃ e, (PriceFilter E ⟨c :: rest⟩ l).1 = .error e ∧ e ≠ .ErrNotValidData) := by
  have hacc := PriceFilter_accepted E c rest l hc hrest
  refine ⟨?_, ?_, ?_⟩
  · intro bs l1 hG
    rw [hacc, hG]
    simp only [hP]
  · intro e l1 hG
    rw [hacc, hG]
    exact ⟨rfl, GetBooks_error E l l1 e hG⟩
  · rw [hacc]
    rcases hG : GetBooks E l with ⟨r, l1⟩
    cases r with
    | error e =>
      refine ⟨e, rfl, ?_⟩
      rcases GetBooks_error E l l1 e hG with h | h <;> rw [h] <;> decide
    | ok bs =>
      simp only [hP]
      exact ⟨.parseFloat, rfl, by decide⟩

/-- C8 amended, run with the filter "<abc" on the document ["1"] and on a
content that does not decode. -/
theorem price_filter_unparsable_witness :
    shelfEnv.ParseFloat [97, 98, 99] = none ∧
    PriceFilter shelfEnv ⟨[60, 97, 98, 99]⟩ (storeOf [1])
      = (.error .parseFloat, ⟨⟨[1], 1, []⟩⟩) ∧
    PriceFilter shelfEnv ⟨[60, 97, 98, 99]⟩ (storeOf [9])
      = (.error .unmarshal, ⟨⟨[9], 1, []⟩⟩) :=
  ⟨by decide,
    (price_filter_unparsable shelfEnv 60 [97, 98, 99] (storeOf [1]) (Or.inl rfl) (by decide)
      (by decide)).1 [bookA] ⟨⟨[1], 1, []⟩⟩ (by decide),
    ((price_filter_unparsable shelfEnv 60 [97, 98, 99] (storeOf [9]) (Or.inl rfl) (by decide)
      (by decide)).2.1 .unmarshal ⟨⟨[9], 1, []⟩⟩ (by decide)).1⟩

/-! Validation on create, and the record invariant -/

/-- The hook ends with the nil error or with the error of a file call. -/
theorem rewrite_result (l : library) (out : List UInt8) :
    (rewrite l out).1 = none ∨ (rewrite l out).1 = some .file := by
  unfold rewrite
  split
  · exact Or.inr rfl
  · split
    · exact Or.inr rfl
    · split
      · exact Or.inr rfl
      · exact Or.inl rfl

/-- The `switch` of `CreateBook` fires exactly on the four defects. -/
theorem rejected_iff (b : Book) :
    rejected b = true ↔
      (b.Genres = none ∨ b.Pages = 0 ∨ b.Price.eq Float64.zero = true ∨ b.Title = []) := by
  unfold rejected
  split_ifs with h1 h2 h3 h4 <;> simp [*]

/-- C9 as stated fails: CreateBook of a record with zero pages fails with
the error "not all fields are populated" that CreateBook builds itself, which
is not ErrNotValidData. -/
theorem create_zero_pages :
    CreateBook shelfEnv [50] { inputB with Pages := 0 } (storeOf [1])
      = (some .notPopulated, storeOf [1]) ∧
    Err.notPopulated ≠ Err.ErrNotValidData := by
  decide

/-- C9, amended: in every store state, CreateBook of a book whose genres are
nil, or whose pages are zero, or whose price is zero, or whose title is
empty fails with its own error "not all fields are populated" (an error value
other than ErrNotValidData) and leaves the store as it was; a book with none
of the four defects never gets that error. -/
theorem create_validation (E : Env) (fresh : GoString) (b : Book) (l : library) :
    ((b.Genres = none ∨ b.Pages = 0 ∨ b.Price.eq Float64.zero = true ∨ b.Title = []) →
      CreateBook E fresh b l = (some .notPopulated, l)) ∧
    (¬ (b.Genres = none ∨ b.Pages = 0 ∨ b.Price.eq Float64.zero = true ∨ b.Title = []) →
      (CreateBook E fresh b l).1 ≠ some .notPopulated) := by
  constructor
  · intro h
    have hr := (rejected_iff b).mpr h
    unfold CreateBook
    rw [hr]
    rfl
  · intro h
    have hr : rejected b = false := by
      cases hb : rejected b with
      | false => rfl
      | true => exact absurd ((rejected_iff b).mp hb) h
    unfold CreateBook
    rw [hr]
    simp only [Bool.false_eq_true, if_false]
    rcases hG : GetBooks E l with ⟨r, l1⟩
    cases r with
    | error e =>
      simp only
      rcases GetBooks_error E l l1 e hG with he | he <;> rw [he] <;> decide
    | ok books =>
      simp only
      split
      · simp
      · rename_i out _
        rcases rewrite_result l1 out with hw | hw <;> rw [hw] <;> decide

/-- C9 amended, run on the document ["1"]: the four defects one by one, and
the complete input "B". -/
theorem create_validation_witness :
    CreateBook shelfEnv [50] { inputB with Genres := none } (storeOf [1])
      = (some .notPopulated, storeOf [1]) ∧
    CreateBook shelfEnv [50] { inputB with Pages := 0 } (storeOf [1])
      = (some .notPopulated, storeOf [1]) ∧
    CreateBook shelfEnv [50] { inputB with Price := .fin 0 } (storeOf [1])
      = (some .notPopulated, storeOf [1]) ∧
    CreateBook shelfEnv [50] { inputB with Title := [] } (storeOf [1])
      = (some .notPopulated, storeOf [1]) ∧
    (CreateBook shelfEnv [50] inputB (storeOf [1])).1 ≠ some .notPopulated :=
  ⟨(create_validation shelfEnv [50] { inputB with Genres := none } (storeOf [1])).1
      (Or.inl rfl),
    (create_validation shelfEnv [50] { inputB with Pages := 0 } (storeOf [1])).1
      (Or.inr (Or.inl rfl)),
    (create_validation shelfEnv [50] { inputB with Price := .fin 0 } (storeOf [1])).1
      (Or.inr (Or.inr (Or.inl (by decide)))),
    (create_validation shelfEnv [50] { inputB with Title := [] } (storeOf [1])).1
      (Or.inr (Or.inr (Or.inr rfl))),
    (create_validation shelfEnv [50] inputB (storeOf [1])).2 (by decide)⟩

/-- When the document decodes, the book passes the validation, the extended
sequence can be encoded and the next five system calls do not fail,
`CreateBook` succeeds and leaves the encoding of the extended sequence. -/
theorem CreateBook_run (E : Env) (fresh : GoString) (b : Book) (l : library) (bs : Books)
    (out : List UInt8) (n : Nat)
    (hU : E.Unmarshal l.storage.data = some bs)
    (hval : rejected b = false)
    (hM : E.MarshalIndent (bs ++ [PrepareToCreate fresh b]) = some out)
    (hcalm : l.storage.calm (n + 5) = true) :
    ∃ l1, CreateBook E fresh b l = (none, l1) ∧ l1.storage.data = out ∧
      l1.storage.calm n = true := by
  obtain ⟨l0, hG, _, hc0⟩ := GetBooks_of_calm E l bs (n + 3) hcalm hU
  obtain ⟨l1, hrw, hc1⟩ := rewrite_of_calm l0 out n hc0
  refine ⟨l1, ?_, (rewrite_ok _ _ _ hrw).1, hc1⟩
  unfold CreateBook
  rw [hval]
  simp only [Bool.false_eq_true, if_false]
  rw [hG]
  simp only
  rw [hM]
  exact hrw

/-- When the document decodes to a sequence split around the first record
with the identifier, the shortened sequence can be encoded and the next five
system calls do not fail, `RemoveBook` succeeds and leaves the encoding of
the shortened sequence. -/
theorem RemoveBook_run (E : Env) (id : GoString) (x : Book) (pre post : Books) (l : library)
    (out : List UInt8) (n : Nat)
    (hU : E.Unmarshal l.storage.data = some (pre ++ x :: post))
    (hpre : ∀ y ∈ pre, y.ID ≠ id) (hx : x.ID = id)
    (hM : E.MarshalIndent (pre ++ post) = some out)
    (hcalm : l.storage.calm (n + 5) = true) :
    ∃ l1, RemoveBook E id l = (none, l1) ∧ l1.storage.data = out ∧
      l1.storage.calm n = true := by
  obtain ⟨l0, hG, _, hc0⟩ := GetBooks_of_calm E l _ (n + 3) hcalm hU
  obtain ⟨l1, hrw, hc1⟩ := rewrite_of_calm l0 out n hc0
  refine ⟨l1, ?_, (rewrite_ok _ _ _ hrw).1, hc1⟩
  have hidx : wantedIndex id (pre ++ x :: post) = .ok pre.length := by
    unfold wantedIndex
    rw [loop_of_split id pre x post 0 hpre hx, Nat.zero_add]
  have hlen : ¬ (pre ++ x :: post).length < pre.length + 1 := by
    simp
  have hcut : List.take pre.length (pre ++ x :: post)
      ++ List.drop (pre.length + 1) (pre ++ x :: post) = pre ++ post := by
    simp [List.take_append_eq_append_take, List.drop_append_eq_append_drop]
  unfold RemoveBook
  rw [hG]
  simp only
  rw [hidx]
  simp only
  rw [if_neg hlen, hcut, hM]
  exact hrw

/-- When the document decodes, the filter is an operator followed by a text
that parses, and the next two system calls do not fail, `PriceFilter` returns
the records that pass the comparison and leaves the content as it was. -/
theorem PriceFilter_run (E : Env) (c : UInt8) (rest : GoString) (price : Float64)
    (l : library) (bs : Books) (n : Nat)
    (hc : c = 60 ∨ c = 62) (hrest : rest ≠ [])
    (hU : E.Unmarshal l.storage.data = some bs)
    (hP : E.ParseFloat rest = some price)
    (hcalm : l.storage.calm (n + 2) = true) :
    ∃ l1, PriceFilter E ⟨c :: rest⟩ l =
        (.ok (bs.filter (fun b => if c = 62 then b.Price.gt price else b.Price.lt price)), l1) ∧
      l1.storage.data = l.storage.data ∧ l1.storage.calm n = true := by
  obtain ⟨l1, hG, hd, hc1⟩ := GetBooks_of_calm E l bs n hcalm hU
  refine ⟨l1, ?_, hd, hc1⟩
  rw [PriceFilter_accepted E c rest l hc hrest, hG]
  simp only [hP, PriceFilter_loop_eq, List.nil_append, stringOfByte_eq_opGreater]

/-! The readers leave the content alone -/

/-- `GetBook` never changes the content of the document. -/
theorem GetBook_data (E : Env) (id : GoString) (l : library) :
    (GetBook E id l).2.storage.data = l.storage.data := by
  have h := GetBooks_data E l
  unfold GetBook
  rcases hG : GetBooks E l with ⟨r, l1⟩
  rw [hG] at h
  cases r <;> exact h

/-- `PriceFilter` never changes the content of the document. -/
theorem PriceFilter_data (E : Env) (filter : BookFilter) (l : library) :
    (PriceFilter E filter l).2.storage.data = l.storage.data := by
  have h := GetBooks_data E l
  unfold PriceFilter
  by_cases h1 : filter.Price.length ≤ 1
  · rw [if_pos h1]
  · rw [if_neg h1]
    cases hh : filter.Price.head? with
    | none => rfl
    | some c =>
      simp only
      by_cases hop : stringOfByte c ≠ opLess ∧ stringOfByte c ≠ opGreater
      · rw [if_pos hop]
      · rw [if_neg hop]
        rcases hG : GetBooks E l with ⟨r, l1⟩
        rw [hG] at h
        cases r with
        | error e => exact h
        | ok bs =>
          simp only
          cases E.ParseFloat (List.drop 1 filter.Price) <;> exact h

/-- A successful `GetBooks` has read a content that decodes. -/
theorem GetBooks_loaded (E : Env) (l l1 : library) (bs : Books)
    (h : GetBooks E l = (.ok bs, l1)) : E.Unmarshal l.storage.data = some bs :=
  (GetBooks_ok E l l1 bs h).1

/-- A successful `CreateBook` has read a document that decodes. -/
theorem CreateBook_loaded (E : Env) (fresh : GoString) (b : Book) (l l1 : library)
    (h : CreateBook E fresh b l = (none, l1)) : ∃ bs, E.Unmarshal l.storage.data = some bs := by
  unfold CreateBook at h
  split at h
  · simp at h
  · rcases hG : GetBooks E l with ⟨r, l0⟩
    rw [hG] at h
    cases r with
    | error e => simp at h
    | ok bs => exact ⟨bs, GetBooks_loaded E l l0 bs hG⟩

/-- A successful `RemoveBook` has read a document that decodes. -/
theorem RemoveBook_loaded (E : Env) (id : GoString) (l l1 : library)
    (h : RemoveBook E id l = (none, l1)) : ∃ bs, E.Unmarshal l.storage.data = some bs := by
  unfold RemoveBook at h
  rcases hG : GetBooks E l with ⟨r, l0⟩
  rw [hG] at h
  cases r with
  | error e => simp at h
  | ok bs => exact ⟨bs, GetBooks_loaded E l l0 bs hG⟩

/-- A successful `ChangeBook` has read a document that decodes. -/
theorem ChangeBook_loaded (E : Env) (c r : Book) (l l1 : library)
    (h : ChangeBook E c l = ((r, none), l1)) : ∃ bs, E.Unmarshal l.storage.data = some bs := by
  unfold ChangeBook at h
  rcases hG : GetBooks E l with ⟨res, l0⟩
  rw [hG] at h
  cases res with
  | error e => simp at h
  | ok bs => exact ⟨bs, GetBooks_loaded E l l0 bs hG⟩

/-- When the next two system calls do not fail, `GetBooks` returns what the
decoder makes of the whole content, wherever the handle stood. -/
theorem GetBooks_of_calm_any (E : Env) (l : library) (n : Nat)
    (hc : l.storage.calm (n + 2) = true) :
    ∃ l1, GetBooks E l =
        ((match E.Unmarshal l.storage.data with
          | some bs => Except.ok bs
          | none => Except.error Err.unmarshal), l1) ∧
      l1.storage.data = l.storage.data ∧ l1.storage.calm n = true := by
  obtain ⟨f1, hS, hc1⟩ := Seek_of_calm l.storage 0 (n + 1) hc
  obtain ⟨hd1, ho1⟩ := Seek_true _ _ _ hS
  obtain ⟨f2, hR, hc2⟩ := ReadAll_of_calm f1 n hc1
  obtain ⟨_, hd2⟩ := ReadAll_some _ _ _ hR
  refine ⟨⟨f2⟩, ?_, by rw [hd2, hd1], hc2⟩
  unfold GetBooks
  rw [hS]
  simp only
  rw [hR]
  simp only [ho1, hd1, List.drop_zero]
  cases E.Unmarshal l.storage.data <;> rfl

/-- The loop of `wantedIndex` fails with `ErrNotFound` when no record carries
the wanted identifier. -/
theorem loop_absent (id : GoString) (bs : Books) (k : Nat) (h : ∀ y ∈ bs, y.ID ≠ id) :
    wantedIndex.loop id bs k = .error .ErrNotFound := by
  induction bs generalizing k with
  | nil => rfl
  | cons b rest ih =>
    have hb : ¬ id = b.ID := fun e => h b (by simp) e.symm
    unfold wantedIndex.loop
    rw [if_neg hb]
    exact ih (k + 1) (fun y hy => h y (by simp [hy]))

/-! C11 to C14 -/

/-- C11 as stated fails for a title that is not valid UTF-8: after CreateBook
of a book with the title "\xff" GetBooks returns, after the old record, a
record whose title is U+FFFD, which is not b with its identifier. -/
theorem create_appends_invalid_title :
    fffdEnv.Unmarshal (storeOf [1]).storage.data = some [bookA] ∧
    CreateBook fffdEnv [50] inputX (storeOf [1]) = (none, ⟨⟨[1, 2], 2, []⟩⟩) ∧
    GetBooks fffdEnv ⟨⟨[1, 2], 2, []⟩⟩ = (.ok [bookA, bookX], ⟨⟨[1, 2], 2, []⟩⟩) ∧
    bookX ≠ PrepareToCreate [50] inputX ∧ bookX.Title ≠ inputX.Title := by
  decide

/-- C11, amended: when the document decodes to bs, then after a successful
CreateBook(b) a GetBooks (not hit by a failing system call) returns bs
followed by exactly one new record: b with the assigned identifier, as the
codec stores it, that is with the pages and price of b and with identifier,
title and genres coerced (invalid UTF-8 replaced by U+FFFD), hence b with
its identifier when these strings are valid UTF-8. The length is that of bs
plus one, the new record is last, and the records of bs come first,
unchanged and in their order. -/
theorem create_appends (E : Env) (coerce : GoString → GoString) (hE : E.Coerces coerce)
    (fresh : GoString) (b : Book) (l l1 : library) (bs : Books)
    (hU : E.Unmarshal l.storage.data = some bs)
    (hok : CreateBook E fresh b l = (none, l1))
    (hcalm : l1.storage.calm 2 = true) :
    ∃ l2 r, GetBooks E l1 = (.ok (bs ++ [r]), l2) ∧ (bs ++ [r]).length = bs.length + 1 ∧
      r.ID = coerce fresh ∧ r.Title = coerce b.Title ∧ r.Pages = b.Pages ∧ r.Price = b.Price ∧
      r.Genres = b.Genres.map (List.map coerce) ∧
      (coerce fresh = fresh → coerce b.Title = b.Title →
        b.Genres.map (List.map coerce) = b.Genres → r = PrepareToCreate fresh b) := by
  obtain ⟨_, hM⟩ := CreateBook_ok E fresh b l l1 bs hU hok
  have hU1 : E.Unmarshal l1.storage.data
      = some (bs ++ [coerced coerce (PrepareToCreate fresh b)]) := by
    rw [hE.1 _ _ hM, List.map_append, hE.2 _ _ hU]
    rfl
  obtain ⟨l2, hG, _, _⟩ := GetBooks_of_calm E l1 _ 0 hcalm hU1
  refine ⟨l2, coerced coerce (PrepareToCreate fresh b), hG, by simp, rfl, rfl, rfl, rfl,
    rfl, ?_⟩
  intro h1 h2 h3
  simp only [coerced, PrepareToCreate, h1, h2, h3]

/-- C11 amended, run on the document ["1"]: creating the record with title
"\xff" under the identifier "2" and listing. -/
theorem create_appends_witness :
    fffdEnv.Unmarshal (storeOf [1]).storage.data = some [bookA] ∧
    CreateBook fffdEnv [50] inputX (storeOf [1]) = (none, ⟨⟨[1, 2], 2, []⟩⟩) ∧
    GetBooks fffdEnv ⟨⟨[1, 2], 2, []⟩⟩ = (.ok [bookA, bookX], ⟨⟨[1, 2], 2, []⟩⟩) ∧
    ∃ l2 r, GetBooks fffdEnv ⟨⟨[1, 2], 2, []⟩⟩ = (.ok ([bookA] ++ [r]), l2) ∧
      ([bookA] ++ [r]).length = [bookA].length + 1 ∧
      r.ID = replaceFF [50] ∧ r.Title = replaceFF inputX.Title ∧ r.Pages = inputX.Pages ∧
      r.Price = inputX.Price ∧ r.Genres = inputX.Genres.map (List.map replaceFF) ∧
      (replaceFF [50] = [50] → replaceFF inputX.Title = inputX.Title →
        inputX.Genres.map (List.map replaceFF) = inputX.Genres →
        r = PrepareToCreate [50] inputX) :=
  ⟨by decide, by decide, by decide,
    create_appends fffdEnv replaceFF fffdEnv_coerces [50] inputX (storeOf [1])
      ⟨⟨[1, 2], 2, []⟩⟩ [bookA] (by decide) (by decide) (by decide)⟩

/-- C13: in every store state and for every position of the handle, a
GetBooks whose two system calls do not fail returns what the decoder makes
of the whole content, read from its start; GetBooks, GetBook and PriceFilter
leave the content of the document as it was; and of two consecutive GetBooks
calls, neither hit by a failing system call, the second returns what the
first returned. -/
theorem reads_are_pure (E : Env) (l : library) :
    (l.storage.calm 2 = true →
      (GetBooks E l).1 =
        (match E.Unmarshal l.storage.data with
          | some bs => Except.ok bs
          | none => Except.error Err.unmarshal)) ∧
    (GetBooks E l).2.storage.data = l.storage.data ∧
    (∀ id, (GetBook E id l).2.storage.data = l.storage.data) ∧
    (∀ filter, (PriceFilter E filter l).2.storage.data = l.storage.data) ∧
    (l.storage.calm 4 = true → (GetBooks E (GetBooks E l).2).1 = (GetBooks E l).1) := by
  refine ⟨?_, GetBooks_data E l, fun id => GetBook_data E id l,
    fun filter => PriceFilter_data E filter l, ?_⟩
  · intro hc
    obtain ⟨l1, hG, _, _⟩ := GetBooks_of_calm_any E l 0 hc
    rw [hG]
  · intro hc
    obtain ⟨l1, hG, hd, hc1⟩ := GetBooks_of_calm_any E l 2 hc
    obtain ⟨l2, hG2, _, _⟩ := GetBooks_of_calm_any E l1 0 hc1
    rw [hG]
    simp only
    rw [hG2, hd]

/-- C13, run on the content [1, 2] with the handle at offset 7: the listing
is the decoding from the start, twice. -/
theorem reads_are_pure_witness :
    (⟨⟨[1, 2], 7, []⟩⟩ : library).storage.calm 4 = true ∧
    (GetBooks shelfEnv ⟨⟨[1, 2], 7, []⟩⟩).1 = .ok [bookA, bookB] ∧
    (GetBooks shelfEnv (GetBooks shelfEnv ⟨⟨[1, 2], 7, []⟩⟩).2).1
      = (GetBooks shelfEnv ⟨⟨[1, 2], 7, []⟩⟩).1 :=
  ⟨by decide,
    (reads_are_pure shelfEnv ⟨⟨[1, 2], 7, []⟩⟩).1 (by decide),
    (reads_are_pure shelfEnv ⟨⟨[1, 2], 7, []⟩⟩).2.2.2.2 (by decide)⟩

/-- C14: when the document decodes to bs and the read is not hit by a
failing system call, GetBook(id) fails with ErrNotFound exactly when no
record of bs has ID id; and when no record of bs has ID id, RemoveBook(id)
and ChangeBook of any book carrying id fail with ErrNotFound and leave the
content of the document as it was. -/
theorem not_found (E : Env) (id : GoString) (l : library) (bs : Books)
    (hU : E.Unmarshal l.storage.data = some bs)
    (hcalm : l.storage.calm 2 = true) :
    ((GetBook E id l).1 = .error .ErrNotFound ↔ ∀ x ∈ bs, x.ID ≠ id) ∧
    ((∀ x ∈ bs, x.ID ≠ id) →
      (RemoveBook E id l).1 = some .ErrNotFound ∧
      (RemoveBook E id l).2.storage.data = l.storage.data ∧
      ∀ c : Book, c.ID = id →
        (ChangeBook E c l).1.2 = some .ErrNotFound ∧
        (ChangeBook E c l).2.storage.data = l.storage.data) := by
  obtain ⟨l1, hG, hd, _⟩ := GetBooks_of_calm E l bs 0 hcalm hU
  constructor
  · unfold GetBook
    rw [hG]
    simp only
    constructor
    · intro hscan x hx hid
      obtain ⟨pre, y, post, hsplit, hpre, hy⟩ := split_of_mem id bs ⟨x, hx, hid⟩
      rw [hsplit, scan_of_split id pre y post hpre hy] at hscan
      simp at hscan
    · intro habs
      exact scan_absent id bs habs
  · intro habs
    have hidx : wantedIndex id bs = .error .ErrNotFound := loop_absent id bs 0 habs
    refine ⟨?_, ?_, ?_⟩
    · unfold RemoveBook
      rw [hG]
      simp only
      rw [hidx]
    · unfold RemoveBook
      rw [hG]
      simp only
      rw [hidx]
      exact hd
    · intro c hc
      unfold ChangeBook
      rw [hG]
      simp only
      rw [hc, hidx]
      exact ⟨rfl, hd⟩

/-- C14, run on the document ["1"] with the absent identifier "2". -/
theorem not_found_witness :
    shelfEnv.Unmarshal (storeOf [1]).storage.data = some [bookA] ∧
    (∀ x ∈ [bookA], x.ID ≠ [50]) ∧
    (GetBook shelfEnv [50] (storeOf [1])).1 = .error .ErrNotFound ∧
    (RemoveBook shelfEnv [50] (storeOf [1])).1 = some .ErrNotFound ∧
    (RemoveBook shelfEnv [50] (storeOf [1])).2.storage.data = (storeOf [1]).storage.data ∧
    (ChangeBook shelfEnv bookB (storeOf [1])).1.2 = some .ErrNotFound ∧
    (ChangeBook shelfEnv bookB (storeOf [1])).2.storage.data = (storeOf [1]).storage.data :=
  ⟨by decide, by decide,
    (not_found shelfEnv [50] (storeOf [1]) [bookA] (by decide) (by decide)).1.mpr (by decide),
    ((not_found shelfEnv [50] (storeOf [1]) [bookA] (by decide) (by decide)).2 (by decide)).1,
    ((not_found shelfEnv [50] (storeOf [1]) [bookA] (by decide) (by decide)).2 (by decide)).2.1,
    (((not_found shelfEnv [50] (storeOf [1]) [bookA] (by decide) (by decide)).2
      (by decide)).2.2 bookB (by decide)).1,
    (((not_found shelfEnv [50] (storeOf [1]) [bookA] (by decide) (by decide)).2
      (by decide)).2.2 bookB (by decide)).2⟩

/-! C15 to C20 -/

/-- C15: whatever the previous content and the position of the handle, after
a successful CreateBook, RemoveBook or ChangeBook the content of the document
is exactly the encoding of the new sequence (the old sequence with the new
record appended, without the removed record, with the changed record in
place): nothing of the previous content is left. -/
theorem whole_document_overwrite (E : Env) (l l1 : library) :
    (∀ fresh b, CreateBook E fresh b l = (none, l1) →
      ∃ bs, E.Unmarshal l.storage.data = some bs ∧
        E.MarshalIndent (bs ++ [PrepareToCreate fresh b]) = some l1.storage.data) ∧
    (∀ id, RemoveBook E id l = (none, l1) →
      ∃ pre x post, E.Unmarshal l.storage.data = some (pre ++ x :: post) ∧
        (∀ y ∈ pre, y.ID ≠ id) ∧ x.ID = id ∧
        E.MarshalIndent (pre ++ post) = some l1.storage.data) ∧
    (∀ c r, ChangeBook E c l = ((r, none), l1) →
      ∃ pre x post, E.Unmarshal l.storage.data = some (pre ++ x :: post) ∧
        (∀ y ∈ pre, y.ID ≠ c.ID) ∧ x.ID = c.ID ∧
        E.MarshalIndent (pre ++ r :: post) = some l1.storage.data) := by
  refine ⟨?_, ?_, ?_⟩
  · intro fresh b hok
    obtain ⟨bs, hU⟩ := CreateBook_loaded E fresh b l l1 hok
    exact ⟨bs, hU, (CreateBook_ok E fresh b l l1 bs hU hok).2⟩
  · intro id hok
    obtain ⟨bs, hU⟩ := RemoveBook_loaded E id l l1 hok
    obtain ⟨pre, x, post, hsplit, hpre, hx, hM⟩ := RemoveBook_ok E id l l1 bs hU hok
    exact ⟨pre, x, post, by rw [hU, hsplit], hpre, hx, hM⟩
  · intro c r hok
    obtain ⟨bs, hU⟩ := ChangeBook_loaded E c r l l1 hok
    obtain ⟨pre, x, post, hsplit, hpre, hx, _, hM⟩ := ChangeBook_ok E c r l l1 bs hU hok
    exact ⟨pre, x, post, by rw [hU, hsplit], hpre, hx, hM⟩

/-- C15, run on a content of three records with the handle at offset 9:
removing "1" leaves the one-byte encoding of the remaining two records cut
to its own length, creating "B" on ["1"] and changing "1" likewise. -/
theorem whole_document_overwrite_witness :
    RemoveBook shelfEnv [49] ⟨⟨[2, 1, 5], 9, []⟩⟩ = (none, ⟨⟨[2, 5], 2, []⟩⟩) ∧
    (∃ pre x post, shelfEnv.Unmarshal (⟨⟨[2, 1, 5], 9, []⟩⟩ : library).storage.data
        = some (pre ++ x :: post) ∧
      (∀ y ∈ pre, y.ID ≠ [49]) ∧ x.ID = [49] ∧
      shelfEnv.MarshalIndent (pre ++ post) = some (⟨⟨[2, 5], 2, []⟩⟩ : library).storage.data) ∧
    ChangeBook shelfEnv blankA ⟨⟨[2, 1, 5], 9, []⟩⟩ = ((blankA, none), ⟨⟨[2, 4, 5], 3, []⟩⟩) ∧
    (∃ pre x post, shelfEnv.Unmarshal (⟨⟨[2, 1, 5], 9, []⟩⟩ : library).storage.data
        = some (pre ++ x :: post) ∧
      (∀ y ∈ pre, y.ID ≠ blankA.ID) ∧ x.ID = blankA.ID ∧
      shelfEnv.MarshalIndent (pre ++ blankA :: post)
        = some (⟨⟨[2, 4, 5], 3, []⟩⟩ : library).storage.data) ∧
    CreateBook shelfEnv [50] inputB ⟨⟨[1], 9, []⟩⟩ = (none, ⟨⟨[1, 2], 2, []⟩⟩) ∧
    (∃ bs, shelfEnv.Unmarshal (⟨⟨[1], 9, []⟩⟩ : library).storage.data = some bs ∧
      shelfEnv.MarshalIndent (bs ++ [PrepareToCreate [50] inputB])
        = some (⟨⟨[1, 2], 2, []⟩⟩ : library).storage.data) :=
  ⟨by decide,
    (whole_document_overwrite shelfEnv ⟨⟨[2, 1, 5], 9, []⟩⟩ ⟨⟨[2, 5], 2, []⟩⟩).2.1 [49]
      (by decide),
    by decide,
    (whole_document_overwrite shelfEnv ⟨⟨[2, 1, 5], 9, []⟩⟩ ⟨⟨[2, 4, 5], 3, []⟩⟩).2.2
      blankA blankA (by decide),
    by decide,
    (whole_document_overwrite shelfEnv ⟨⟨[1], 9, []⟩⟩ ⟨⟨[1, 2], 2, []⟩⟩).1 [50] inputB
      (by decide)⟩

/-- C17: when the document decodes to bs, the filter is '<' or '>' followed
by a text that parses as n, the read is not hit by a failing system call and
no record of bs passes the comparison (as when bs is empty), PriceFilter
succeeds and returns the empty sequence. -/
theorem price_filter_no_match (E : Env) (hempty : E.ParseFloat [] = none) (c : UInt8)
    (rest : GoString) (n : Float64) (l : library) (bs : Books)
    (hc : c = 60 ∨ c = 62)
    (hU : E.Unmarshal l.storage.data = some bs)
    (hP : E.ParseFloat rest = some n)
    (hcalm : l.storage.calm 2 = true)
    (hnone : ∀ b ∈ bs, (if c = 62 then b.Price.gt n else b.Price.lt n) = false) :
    ∃ l1, PriceFilter E ⟨c :: rest⟩ l = (.ok [], l1) := by
  have hrest : rest ≠ [] := by
    intro h0
    rw [h0, hempty] at hP
    simp at hP
  obtain ⟨l1, hrun, _, _⟩ := PriceFilter_run E c rest n l bs 0 hc hrest hU hP hcalm
  refine ⟨l1, ?_⟩
  rw [hrun]
  have hfil : bs.filter (fun b => if c = 62 then b.Price.gt n else b.Price.lt n) = [] := by
    rw [List.filter_eq_nil_iff]
    intro b hb
    rw [hnone b hb]
    simp
  rw [hfil]

/-- C17, run with the filter ">10" on the document ["1" (9.99), "2" (5)] and
with "<10" on the empty document. -/
theorem price_filter_no_match_witness :
    shelfEnv.Unmarshal (storeOf [1, 2]).storage.data = some [bookA, bookB] ∧
    shelfEnv.Unmarshal (storeOf []).storage.data = some [] ∧
    shelfEnv.ParseFloat [49, 48] = some (.fin 10) ∧
    (∃ l1, PriceFilter shelfEnv ⟨[62, 49, 48]⟩ (storeOf [1, 2]) = (.ok [], l1)) ∧
    (∃ l1, PriceFilter shelfEnv ⟨[60, 49, 48]⟩ (storeOf []) = (.ok [], l1)) :=
  ⟨by decide, by decide, by decide,
    price_filter_no_match shelfEnv (by decide) 62 [49, 48] (.fin 10) (storeOf [1, 2])
      [bookA, bookB] (Or.inr rfl) (by decide) (by decide) (by decide) (by decide),
    price_filter_no_match shelfEnv (by decide) 60 [49, 48] (.fin 10) (storeOf [])
      [] (Or.inl rfl) (by decide) (by decide) (by decide) (by decide)⟩

/-- C18: for every sequence bs and identifier id, wantedIndex succeeds
exactly when the scan of GetBook finds a record; and when wantedIndex returns
i, the record at position i of bs carries id, no record at a smaller
position does, and the scan of GetBook returns that very record, also when
several records carry id. -/
theorem same_record_selected (id : GoString) (bs : Books) :
    ((∃ i, wantedIndex id bs = .ok i) ↔ (∃ x, GetBook.scan id bs = .ok x)) ∧
    (∀ i, wantedIndex id bs = .ok i →
      ∃ x, bs.get? i = some x ∧ x.ID = id ∧ GetBook.scan id bs = .ok x ∧
        ∀ j y, j < i → bs.get? j = some y → y.ID ≠ id) := by
  have hfound : ∀ i, wantedIndex id bs = .ok i →
      ∃ x, bs.get? i = some x ∧ x.ID = id ∧ GetBook.scan id bs = .ok x ∧
        ∀ j y, j < i → bs.get? j = some y → y.ID ≠ id := by
    intro i hi
    obtain ⟨pre, x, post, hsplit, hpre, hx, hidx⟩ := loop_ok id bs 0 i hi
    simp only [Nat.zero_add] at hidx
    subst hidx hsplit
    refine ⟨x, ?_, hx, scan_of_split id pre x post hpre hx, ?_⟩
    · rw [List.get?_eq_getElem?, List.getElem?_append_right (Nat.le_refl _)]
      simp
    · intro j y hj hget
      rw [List.get?_eq_getElem?, List.getElem?_append_left hj] at hget
      exact hpre y (List.getElem?_mem hget)
  refine ⟨⟨?_, ?_⟩, hfound⟩
  · rintro ⟨i, hi⟩
    obtain ⟨x, _, _, hscan, _⟩ := hfound i hi
    exact ⟨x, hscan⟩
  · rintro ⟨x, hscan⟩
    cases hW : wantedIndex id bs with
    | ok i => exact ⟨i, rfl⟩
    | error e =>
      obtain ⟨_, habs⟩ := loop_error id bs 0 e hW
      rw [scan_absent id bs habs] at hscan
      simp at hscan

/-- C18, run on the sequence ["2", "1" (A), "1" (D)] with the identifier "1":
the index is 1 and the record read is A, the first of the two. -/
theorem same_record_selected_witness :
    wantedIndex [49] [bookB, bookA, twinA] = .ok 1 ∧
    GetBook.scan [49] [bookB, bookA, twinA] = .ok bookA ∧
    ∃ x, [bookB, bookA, twinA].get? 1 = some x ∧ x.ID = [49] ∧
      GetBook.scan [49] [bookB, bookA, twinA] = .ok x ∧
      ∀ j y, j < 1 → [bookB, bookA, twinA].get? j = some y → y.ID ≠ [49] :=
  ⟨by decide, by decide,
    (same_record_selected [49] [bookB, bookA, twinA]).2 1 (by decide)⟩

/-- The index a successful `wantedIndex` returns is a position of the
sequence. -/
theorem wantedIndex_lt (id : GoString) (bs : Books) (i : Nat)
    (h : wantedIndex id bs = .ok i) : i < bs.length := by
  obtain ⟨pre, x, post, hsplit, _, _, hidx⟩ := loop_ok id bs 0 i h
  rw [hsplit, hidx]
  simp

/-- The part of `ChangeBook` after the record at the index was read never
ends in the out-of-range panic. -/
theorem ChangeBook_tail (l1 : library) (b book : Book) (enc : Option (List UInt8)) :
    ((match enc with
      | none => ((b, some Err.marshal), l1)
      | some byteBooks =>
        match l1.storage.Truncate 0 with
        | (false, f1) => ((b, some Err.file), (⟨f1⟩ : library))
        | (true, f1) =>
          match f1.Seek 0 with
          | (false, f2) => ((b, some Err.file), ⟨f2⟩)
          | (true, f2) =>
            match f2.Write byteBooks with
            | (false, f3) => ((book, some Err.file), ⟨f3⟩)
            | (true, f3) => ((book, none), ⟨f3⟩)) : (Book × Option Err) × library).1.2
      ≠ some Err.outOfRange := by
  cases enc with
  | none => simp
  | some out =>
    simp only
    split
    · simp
    · split
      · simp
      · split <;> simp

/-- C20: an index returned by wantedIndex without error is a position of the
sequence, 0 <= i < length; RemoveBook and ChangeBook never end in the
out-of-range panic of their slice and index expressions, and PriceFilter
never ends in the out-of-range panic of its access to the first byte and to
the remainder of the filter string. -/
theorem indexing_safe (E : Env) (id : GoString) (c : Book) (filter : BookFilter)
    (l : library) (bs : Books) :
    (∀ i, wantedIndex id bs = .ok i → 0 ≤ i ∧ i < bs.length) ∧
    (RemoveBook E id l).1 ≠ some .outOfRange ∧
    (ChangeBook E c l).1.2 ≠ some .outOfRange ∧
    (PriceFilter E filter l).1 ≠ .error .outOfRange := by
  refine ⟨fun i hi => ⟨Nat.zero_le i, wantedIndex_lt id bs i hi⟩, ?_, ?_, ?_⟩
  · unfold RemoveBook
    rcases hG : GetBooks E l with ⟨r, l1⟩
    cases r with
    | error e =>
      simp only
      rcases GetBooks_error E l l1 e hG with he | he <;> rw [he] <;> decide
    | ok books =>
      simp only
      cases hW : wantedIndex id books with
      | error e =>
        simp only
        rw [(loop_error id books 0 e hW).1]
        decide
      | ok index =>
        simp only
        have hlt := wantedIndex_lt id books index hW
        have hlen : ¬ books.length < index + 1 := by omega
        rw [if_neg hlen]
        split
        · simp
        · rename_i out _
          rcases rewrite_result l1 out with hw | hw <;> rw [hw] <;> decide
  · unfold ChangeBook
    rcases hG : GetBooks E l with ⟨r, l1⟩
    cases r with
    | error e =>
      simp only
      rcases GetBooks_error E l l1 e hG with he | he <;> rw [he] <;> decide
    | ok books =>
      simp only
      cases hW : wantedIndex c.ID books with
      | error e =>
        simp only
        rw [(loop_error c.ID books 0 e hW).1]
        decide
      | ok index =>
        simp only
        have hlt := wantedIndex_lt c.ID books index hW
        cases hget : books.get? index with
        | none =>
          rw [List.get?_eq_none] at hget
          omega
        | some old =>
          simp only
          exact ChangeBook_tail l1 _ _ _
  · unfold PriceFilter
    by_cases h1 : filter.Price.length ≤ 1
    · rw [if_pos h1]
      simp
    · rw [if_neg h1]
      cases hh : filter.Price.head? with
      | none =>
        rw [List.head?_eq_none_iff] at hh
        rw [hh] at h1
        simp at h1
      | some ch =>
        simp only
        by_cases hop : stringOfByte ch ≠ opLess ∧ stringOfByte ch ≠ opGreater
        · rw [if_pos hop]
          simp
        · rw [if_neg hop]
          rcases hG : GetBooks E l with ⟨r, l1⟩
          cases r with
          | error e =>
            simp only
            rcases GetBooks_error E l l1 e hG with he | he <;> rw [he] <;> decide
          | ok books =>
            simp only
            cases E.ParseFloat (List.drop 1 filter.Price) <;> simp

/-- C20, run on a one-element sequence and on a match at the last position,
and on stores with the records "1" and "2". -/
theorem indexing_safe_witness :
    wantedIndex [49] [bookA] = .ok 0 ∧
    wantedIndex [49] [bookB, bookA] = .ok 1 ∧
    (0 ≤ 0 ∧ 0 < [bookA].length) ∧
    (0 ≤ 1 ∧ 1 < [bookB, bookA].length) ∧
    RemoveBook shelfEnv [49] (storeOf [1]) = (none, ⟨⟨[], 0, []⟩⟩) ∧
    RemoveBook shelfEnv [49] (storeOf [2, 1]) = (none, ⟨⟨[2], 1, []⟩⟩) ∧
    ChangeBook shelfEnv bookC (storeOf [2, 1]) = ((bookC, none), ⟨⟨[2, 3], 2, []⟩⟩) :=
  ⟨by decide, by decide,
    (indexing_safe shelfEnv [49] bookC ⟨[]⟩ (storeOf [1]) [bookA]).1 0 (by decide),
    (indexing_safe shelfEnv [49] bookC ⟨[]⟩ (storeOf [2, 1]) [bookB, bookA]).1 1 (by decide),
    by decide, by decide, by decide⟩

/-- C16: on a store whose document decodes to the one record {"1", "A", 100,
9.99, ["sci-fi"]}, with a fresh generated identifier, an encoder that accepts
the sequences met, a parser that reads "10" as 10 and no failing system call,
CreateBook({"B", 50, 5, ["drama"]}) succeeds and the new identifier is not
"1"; GetBooks then returns two records, "A" first; PriceFilter with "<10"
returns both; RemoveBook("1") succeeds and GetBooks then returns exactly the
record titled "B". -/
theorem scenario (E : Env) (hE : E.Lawful) (fresh : GoString) (l : library)
    (hU : E.Unmarshal l.storage.data = some [bookA])
    (hfresh : FreshID fresh [bookA])
    (hP : E.ParseFloat [49, 48] = some (.fin 10))
    (hM1 : (E.MarshalIndent [bookA, PrepareToCreate fresh inputB]).isSome = true)
    (hM2 : (E.MarshalIndent [PrepareToCreate fresh inputB]).isSome = true)
    (hcalm : l.storage.calm 16 = true) :
    ∃ l1 l2 l3 l4 l5,
      CreateBook E fresh inputB l = (none, l1) ∧ fresh ≠ [49] ∧
      GetBooks E l1 = (.ok [bookA, PrepareToCreate fresh inputB], l2) ∧
      [bookA, PrepareToCreate fresh inputB].length = 2 ∧
      PriceFilter E ⟨[60, 49, 48]⟩ l2 = (.ok [bookA, PrepareToCreate fresh inputB], l3) ∧
      RemoveBook E [49] l3 = (none, l4) ∧
      GetBooks E l4 = (.ok [PrepareToCreate fresh inputB], l5) ∧
      (PrepareToCreate fresh inputB).Title = [66] := by
  obtain ⟨out1, hout1⟩ := Option.isSome_iff_exists.mp hM1
  obtain ⟨out2, hout2⟩ := Option.isSome_iff_exists.mp hM2
  have hne : fresh ≠ [49] := fun h => hfresh.2 bookA (by simp) h.symm
  obtain ⟨l1, hC, hd1, hc1⟩ := CreateBook_run E fresh inputB l [bookA] out1 11 hU
    (by decide) hout1 hcalm
  have hU1 : E.Unmarshal l1.storage.data = some [bookA, PrepareToCreate fresh inputB] := by
    rw [hd1]; exact hE _ _ hout1
  obtain ⟨l2, hG, hd2, hc2⟩ := GetBooks_of_calm E l1 _ 9 hc1 hU1
  have hU2 : E.Unmarshal l2.storage.data = some [bookA, PrepareToCreate fresh inputB] := by
    rw [hd2]; exact hU1
  obtain ⟨l3, hF, hd3, hc3⟩ := PriceFilter_run E 60 [49, 48] (.fin 10) l2 _ 7
    (Or.inl rfl) (by decide) hU2 hP hc2
  have hA : bookA.Price.lt (.fin 10) = true := by decide
  have hB : (PrepareToCreate fresh inputB).Price.lt (.fin 10) = true := by
    show inputB.Price.lt (.fin 10) = true
    decide
  have h6062 : ¬ ((60 : UInt8) = 62) := by decide
  simp only [h6062, if_false, List.filter_cons, hA, hB, if_true, List.filter_nil] at hF
  have hU3 : E.Unmarshal l3.storage.data = some ([] ++ bookA :: [PrepareToCreate fresh inputB]) := by
    rw [hd3]; exact hU2
  obtain ⟨l4, hR, hd4, hc4⟩ := RemoveBook_run E [49] bookA [] [PrepareToCreate fresh inputB] l3
    out2 2 hU3 (by simp) rfl hout2 hc3
  have hU4 : E.Unmarshal l4.storage.data = some [PrepareToCreate fresh inputB] := by
    rw [hd4]; exact hE _ _ hout2
  obtain ⟨l5, hG5, _, _⟩ := GetBooks_of_calm E l4 _ 0 hc4 hU4
  exact ⟨l1, l2, l3, l4, l5, hC, hne, hG, rfl, hF, hR, hG5, rfl⟩

/-- C16, run in the small environment with the generated identifier "2". -/
theorem scenario_witness :
    shelfEnv.Unmarshal (storeOf [1]).storage.data = some [bookA] ∧
    FreshID [50] [bookA] ∧
    CreateBook shelfEnv [50] inputB (storeOf [1]) = (none, ⟨⟨[1, 2], 2, []⟩⟩) ∧
    GetBooks shelfEnv ⟨⟨[1, 2], 2, []⟩⟩ = (.ok [bookA, bookB], ⟨⟨[1, 2], 2, []⟩⟩) ∧
    PriceFilter shelfEnv ⟨[60, 49, 48]⟩ ⟨⟨[1, 2], 2, []⟩⟩
      = (.ok [bookA, bookB], ⟨⟨[1, 2], 2, []⟩⟩) ∧
    RemoveBook shelfEnv [49] ⟨⟨[1, 2], 2, []⟩⟩ = (none, ⟨⟨[2], 1, []⟩⟩) ∧
    GetBooks shelfEnv ⟨⟨[2], 1, []⟩⟩ = (.ok [bookB], ⟨⟨[2], 1, []⟩⟩) ∧
    ∃ l1 l2 l3 l4 l5,
      CreateBook shelfEnv [50] inputB (storeOf [1]) = (none, l1) ∧ ([50] : GoString) ≠ [49] ∧
      GetBooks shelfEnv l1 = (.ok [bookA, PrepareToCreate [50] inputB], l2) ∧
      [bookA, PrepareToCreate [50] inputB].length = 2 ∧
      PriceFilter shelfEnv ⟨[60, 49, 48]⟩ l2
        = (.ok [bookA, PrepareToCreate [50] inputB], l3) ∧
      RemoveBook shelfEnv [49] l3 = (none, l4) ∧
      GetBooks shelfEnv l4 = (.ok [PrepareToCreate [50] inputB], l5) ∧
      (PrepareToCreate [50] inputB).Title = [66] :=
  ⟨by decide, ⟨by decide, by decide⟩, by decide, by decide, by decide, by decide, by decide,
    scenario shelfEnv shelfEnv_lawful [50] (storeOf [1]) (by decide) ⟨by decide, by decide⟩
      (by decide) (by decide) (by decide) (by decide)⟩

end Storage
